import Mathlib

/-!
Shallow embedding of the OpenSlides agenda core
(`openslides/agenda/models.py`): the `Speaker` queue (`SpeakerManager.add`,
`Speaker.begin_speach`, `Speaker.end_speach`, `Item.get_list_of_speakers`)
and the agenda `Item` tree (`Item.delete`, `Item.calc_item_no`,
`Item._calc_sibling_no`).

The database is modelled as a list of records; timestamps are `Nat` values
passed in explicitly ("now"); Django query primitives (`filter`, `exclude`,
`order_by`, `aggregate(Max)`, slicing, `get`) are modelled by list
operations; `get` on several matches raises `MultipleObjectsReturned`,
modelled with `Except`.  The countdown side effects are recorded as an
event list.
-/

namespace OpenSlides

/-- One row of the `agenda_speaker` table.  `weight` is `Option` because the
column is nullable (it is set to NULL by `begin_speach`). -/
structure Speaker where
  id : Nat
  user : Nat
  item : Nat
  begin_time : Option Nat
  end_time : Option Nat
  weight : Option Int
  deriving Repr, DecidableEq

/-- The phase of a speaker entry, derived from its timestamps (spec section 3). -/
inductive Phase where
  | coming
  | speaking
  | spoken
  deriving Repr, DecidableEq

/-- Derived phase: `coming` if `begin_time` unset, `speaking` if only
`begin_time` set, `spoken` if both set. -/
def Speaker.phase (s : Speaker) : Phase :=
  match s.begin_time, s.end_time with
  | none, _ => Phase.coming
  | some _, none => Phase.speaking
  | some _, some _ => Phase.spoken

/-- Boolean test for the `speaking` phase. -/
def Speaker.isSpeaking (s : Speaker) : Bool :=
  !(s.begin_time == none) && s.end_time == none

/-- A reference to a user, with the `AnonymousUser` test of
`django.contrib.auth`. -/
structure UserRef where
  id : Nat
  anonymous : Bool
  deriving Repr, DecidableEq

/-- The two `OpenSlidesError` cases raised by `SpeakerManager.add`. -/
inductive AddError where
  | duplicate
  | anonymous
  deriving Repr, DecidableEq

/-- Python `x or 0` applied to a nullable integer: both `None` and `0` are
falsy and yield `0`. -/
def pyOrZero (a : Option Int) : Int :=
  match a with
  | none => 0
  | some v => if v == 0 then 0 else v

/-- Django `aggregate(Max('weight'))`: the maximum of the non-NULL values,
or `None` when there is none. -/
def aggMax (l : List Int) : Option Int :=
  l.foldl (fun a w =>
    match a with
    | none => some w
    | some m => some (max m w)) none

/-- The nullable weights of all entries of an item
(`Speaker.objects.filter(item=item)`, column `weight`). -/
def itemWeights (db : List Speaker) (item : Nat) : List Int :=
  (db.filter (fun s => s.item == item)).filterMap (fun s => s.weight)

/-- `SpeakerManager.add(user, item)`: raises on a duplicate entry with
`begin_time=None`, then on an anonymous user; otherwise creates a new entry
with weight `max + 1`.  `freshId` stands for the autoincremented primary
key. -/
def SpeakerManager.add (db : List Speaker) (user : UserRef) (item : Nat)
    (freshId : Nat) : Except AddError (Speaker × List Speaker) :=
  if db.any (fun s => s.user == user.id && s.item == item && s.begin_time == none) then
    .error AddError.duplicate
  else if user.anonymous then
    .error AddError.anonymous
  else
    let w : Int := pyOrZero (aggMax (itemWeights db item)) + 1
    let sp : Speaker :=
      { id := freshId, user := user.id, item := item,
        begin_time := none, end_time := none, weight := some w }
    .ok (sp, db ++ [sp])

/-- Countdown side effects fired via `openslides.projector.api`. -/
inductive CountdownEvent where
  | reset
  | start
  | stop
  deriving Repr, DecidableEq

/-- `instance.save()`: overwrite the row with the instance's id by the
instance (Django writes every column). -/
def dbSave (db : List Speaker) (s : Speaker) : List Speaker :=
  db.map (fun t => if t.id == s.id then s else t)

/-- The queryset predicate
`filter(item=item, end_time=None).exclude(begin_time=None)`. -/
def speakPred (item : Nat) (s : Speaker) : Bool :=
  s.item == item && s.end_time == none && !(s.begin_time == none)

/-- The rows matching
`Speaker.objects.filter(item=item, end_time=None).exclude(begin_time=None)`:
the entries of the item currently in phase `speaking`. -/
def speakingOn (db : List Speaker) (item : Nat) : List Speaker :=
  db.filter (speakPred item)

/-- `Speaker.end_speach()`: stamp `end_time = now`, save, and fire
`stop_countdown` when `agenda_couple_countdown_and_speakers` is set.
Returns the new table, the fired events and the updated instance. -/
def Speaker.end_speach (db : List Speaker) (self : Speaker) (now : Nat)
    (couple : Bool) : List Speaker × List CountdownEvent × Speaker :=
  let self2 := { self with end_time := some now }
  (dbSave db self2, (if couple then [CountdownEvent.stop] else []), self2)

/-- Django `.get()` raising `MultipleObjectsReturned`. -/
inductive QueryError where
  | multipleObjectsReturned
  deriving Repr, DecidableEq

/-- `Speaker.begin_speach()`: end the speach of the current speaker of the
item if there is one (`.get()` raises when there are several, before any
mutation), then set `weight = None` and `begin_time = now`, save, and fire
`reset_countdown` and `start_countdown` when the configuration flag is
set. -/
def Speaker.begin_speach (db : List Speaker) (self : Speaker) (now : Nat)
    (couple : Bool) : Except QueryError (List Speaker × List CountdownEvent) :=
  match speakingOn db self.item with
  | [] =>
      let self2 := { self with weight := none, begin_time := some now }
      .ok (dbSave db self2, if couple then [CountdownEvent.reset, CountdownEvent.start] else [])
  | [a] =>
      let r := Speaker.end_speach db a now couple
      let self2 := { self with weight := none, begin_time := some now }
      .ok (dbSave r.1 self2,
           r.2.1 ++ (if couple then [CountdownEvent.reset, CountdownEvent.start] else []))
  | _ => .error QueryError.multipleObjectsReturned

/-- The queue operations of the speaker state machine. -/
inductive QueueOp where
  | enqueue (user : UserRef) (item : Nat)
  | begin (sid : Nat) (now : Nat)
  | finish (sid : Nat) (now : Nat)
  | remove (sid : Nat)

/-- The next autoincremented primary key: one more than the largest id in
the table. -/
def nextId (db : List Speaker) : Nat :=
  (db.map (fun s => s.id)).foldl max 0 + 1

/-- Apply one queue operation to the speaker table.  A raised error leaves
the table unchanged (the exception propagates before any save), and an
operation on an id that is not in the table is a no-op (the view layer
answers 404 without touching the queue). -/
def applyOp (couple : Bool) (db : List Speaker) (op : QueueOp) : List Speaker :=
  match op with
  | QueueOp.enqueue user item =>
      match SpeakerManager.add db user item (nextId db) with
      | .ok r => r.2
      | .error _ => db
  | QueueOp.begin sid now =>
      match db.find? (fun s => s.id == sid) with
      | none => db
      | some self =>
          match Speaker.begin_speach db self now couple with
          | .ok r => r.1
          | .error _ => db
  | QueueOp.finish sid now =>
      match db.find? (fun s => s.id == sid) with
      | none => db
      | some self => (Speaker.end_speach db self now couple).1
  | QueueOp.remove sid => db.filter (fun s => !(s.id == sid))

/-- Run a sequence of queue operations. -/
def runOps (couple : Bool) (db : List Speaker) (ops : List QueueOp) : List Speaker :=
  ops.foldl (applyOp couple) db

/-- A speaker-list row is rendered with a prefix that is either a Python
`str` or a Python `int` (the source mixes both types). -/
inductive PrefixVal where
  | s (v : String)
  | i (v : Int)
  deriving Repr, DecidableEq

/-- One dictionary of `Item.get_list_of_speakers`. -/
structure SpeakerView where
  prefixVal : PrefixVal
  speakerId : Nat
  stype : String
  first_in_group : Bool
  last_in_group : Bool
  deriving Repr, DecidableEq

/-- Stable insertion by an integer key: the element is placed before the
first element with a greater-or-equal key coming later in the list, which
keeps the original order of equal keys. -/
def insertByKey (key : α → Int) (a : α) : List α → List α
  | [] => [a]
  | b :: l => if key b < key a then b :: insertByKey key a l else a :: b :: l

/-- Stable sort by an integer key, modelling `order_by` of a Django
queryset. -/
def sortByKey (key : α → Int) : List α → List α
  | [] => []
  | a :: l => insertByKey key a (sortByKey key l)

/-- `speaker_query.exclude(begin_time=None).exclude(end_time=None).order_by('end_time')`:
the spoken entries of the item, ordered by end time. -/
def oldSorted (db : List Speaker) (item : Nat) : List Speaker :=
  sortByKey (fun s => ((s.end_time.getD 0 : Nat) : Int))
    ((db.filter (fun s => s.item == item)).filter
      (fun s => !(s.begin_time == none) && !(s.end_time == none)))

/-- `speaker_query.filter(end_time=None).exclude(begin_time=None)`: the
speaking entries of the item. -/
def actuals (db : List Speaker) (item : Nat) : List Speaker :=
  (db.filter (fun s => s.item == item)).filter
    (fun s => s.end_time == none && !(s.begin_time == none))

/-- `speaker_query.filter(begin_time=None).order_by('weight')`: the coming
entries of the item, ordered by weight. -/
def comingSorted (db : List Speaker) (item : Nat) : List Speaker :=
  sortByKey (fun s => s.weight.getD 0)
    ((db.filter (fun s => s.item == item)).filter (fun s => s.begin_time == none))

/-- `old_speakers[last_old_speakers_count:]` with
`last_old_speakers_count = max(0, old_speakers.count() - old_speakers_count)`:
the trailing window of the spoken entries. -/
def oldWindow (db : List Speaker) (item : Nat) (oc : Int) : List Speaker :=
  (oldSorted db item).drop (max 0 (((oldSorted db item).length : Int) - oc)).toNat

/-- `coming_speakers[:max(0, coming_speakers_count)]`: the leading window of
the coming entries. -/
def comingWindow (db : List Speaker) (item : Nat) (cc : Int) : List Speaker :=
  (comingSorted db item).take (max 0 cc).toNat

/-- The dictionary built for the `number`-th old speaker:
`prefix = '-%d' % (old_speakers_count - number)`. -/
def mkOldView (oc : Int) (number : Nat) (s : Speaker) : SpeakerView :=
  { prefixVal := PrefixVal.s ("-" ++ toString (oc - (number : Int))),
    speakerId := s.id,
    stype := "old_speaker",
    first_in_group := number == 0,
    last_in_group := (number : Int) == oc - 1 }

/-- The dictionary built for the actual speaker. -/
def mkActualView (s : Speaker) : SpeakerView :=
  { prefixVal := PrefixVal.s "0",
    speakerId := s.id,
    stype := "actual_speaker",
    first_in_group := true,
    last_in_group := true }

/-- The dictionary built for the `number`-th coming speaker:
`prefix = number + 1` (a Python `int`). -/
def mkComingView (cc : Int) (number : Nat) (s : Speaker) : SpeakerView :=
  { prefixVal := PrefixVal.i ((number : Int) + 1),
    speakerId := s.id,
    stype := "coming_speaker",
    first_in_group := number == 0,
    last_in_group := (number : Int) == cc - 1 }

/-- The rendered old-speaker group. -/
def oldViews (db : List Speaker) (item : Nat) (oc : Int) : List SpeakerView :=
  (List.enum (oldWindow db item oc)).map (fun p => mkOldView oc p.1 p.2)

/-- The rendered coming-speaker group. -/
def comingViews (db : List Speaker) (item : Nat) (cc : Int) : List SpeakerView :=
  (List.enum (comingWindow db item cc)).map (fun p => mkComingView cc p.1 p.2)

/-- `Item.get_list_of_speakers(old_speakers_count, coming_speakers_count)`:
the three groups in order old, actual, coming.  A `None` count defaults to
the size of the corresponding full group; `.get()` for the actual speaker
raises when several entries are speaking and is skipped when none is. -/
def Item.get_list_of_speakers (db : List Speaker) (item : Nat)
    (old_speakers_count coming_speakers_count : Option Int) :
    Except QueryError (List SpeakerView) :=
  let oc : Int := old_speakers_count.getD ((oldSorted db item).length : Int)
  let cc : Int := coming_speakers_count.getD ((comingSorted db item).length : Int)
  match actuals db item with
  | [] => .ok (oldViews db item oc ++ comingViews db item cc)
  | [a] => .ok (oldViews db item oc ++ [mkActualView a] ++ comingViews db item cc)
  | _ => .error QueryError.multipleObjectsReturned

/-- One row of the `agenda_item` table.  `itemType` is `1` for
`AGENDA_ITEM` and `2` for `ORGANIZATIONAL_ITEM`; `parent` is the nullable
tree foreign key; `weight` is the sibling sort key
(`MPTTMeta.order_insertion_by = ['weight']`). -/
structure AgendaItem where
  id : Nat
  parent : Option Nat
  weight : Int
  itemType : Nat
  deriving Repr, DecidableEq

/-- `Item.AGENDA_ITEM`. -/
def AGENDA_ITEM : Nat := 1

/-- `Item.ORGANIZATIONAL_ITEM`. -/
def ORGANIZATIONAL_ITEM : Nat := 2

/-- Look an item up by its primary key. -/
def findItem (db : List AgendaItem) (i : Nat) : Option AgendaItem :=
  db.find? (fun x => x.id == i)

/-- The ids of all items. -/
def itemIds (db : List AgendaItem) : List Nat :=
  db.map (fun x => x.id)

/-- The chain of ancestor ids starting at the given node reference and
following `parent` links, cut off by the fuel.  Used to decide membership
in a subtree. -/
def ancestorChain (db : List AgendaItem) : Nat → Option Nat → List Nat
  | 0, _ => []
  | _ + 1, none => []
  | fuel + 1, some i =>
      i :: (match findItem db i with
            | none => []
            | some x => ancestorChain db fuel x.parent)

/-- `x` lies in the subtree rooted at `k`: its ancestor chain passes
through `k`. -/
def inSubtree (db : List AgendaItem) (k : Nat) (xid : Nat) : Bool :=
  (ancestorChain db (db.length + 1) (some xid)).contains k

/-- Declarative subtree membership: `Desc db k j` holds when the item `j`
is `k` itself or a chain of `parent` links leads from `j` up to `k`. -/
inductive Desc (db : List AgendaItem) (k : Nat) : Nat → Prop where
  | refl : Desc db k k
  | step (x : AgendaItem) (p : Nat) : x ∈ db → x.parent = some p →
      Desc db k p → Desc db k x.id

/-- The parent chain of the given node reference reaches a root
(`parent = None`) within the fuel, with every intermediate id present in
the table.  Every MPTT tree satisfies this with fuel `db.length`. -/
def reachesRoot (db : List AgendaItem) : Nat → Option Nat → Bool
  | _, none => true
  | 0, some _ => false
  | fuel + 1, some i =>
      match findItem db i with
      | none => false
      | some x => reachesRoot db fuel x.parent

/-- Result of `Item.delete`: the remaining rows, and whether
`Item.objects.rebuild()` was called afterwards. -/
structure DeleteResult where
  items : List AgendaItem
  rebuilt : Bool
  deriving Repr, DecidableEq

/-- `Item.delete(with_children)`: when `with_children` is false every direct
child is first moved to the parent of the deleted item
(`child.move_to(self.parent); child.save()`) and then the row is deleted;
when it is true the cascading foreign key removes the whole subtree.  In
both cases `Item.objects.rebuild()` runs afterwards. -/
def Item.delete (db : List AgendaItem) (k : Nat) (with_children : Bool) :
    DeleteResult :=
  if with_children then
    { items := db.filter (fun x => !(inSubtree db k x.id)), rebuilt := true }
  else
    let p : Option Nat := (findItem db k).bind (fun x => x.parent)
    let db1 := db.map (fun x => if x.parent == some k then { x with parent := p } else x)
    { items := db1.filter (fun x => !(x.id == k)), rebuilt := true }

/-- Position of an item id in the table (used as the insertion-order
tie-break of the sibling ordering). -/
def itemPos (db : List AgendaItem) (i : Nat) : Nat :=
  db.findIdx (fun x => x.id == i)

/-- The MPTT sibling order with `order_insertion_by = ['weight']`: `a`
comes before `b` when its weight is smaller, or on equal weights when it
was inserted earlier. -/
def siblingBefore (db : List AgendaItem) (a b : AgendaItem) : Prop :=
  a.weight < b.weight ∨ (a.weight = b.weight ∧ itemPos db a.id < itemPos db b.id)

/-- The ordered siblings below a parent reference, sorted stably by
weight. -/
def orderedSiblings (db : List AgendaItem) (p : Option Nat) : List AgendaItem :=
  sortByKey (fun x => x.weight) (db.filter (fun x => x.parent == p))

/-- The ordered siblings strictly before `x`
(everything `get_previous_sibling` walks through). -/
def prevSiblings (db : List AgendaItem) (x : AgendaItem) : List AgendaItem :=
  (orderedSiblings db x.parent).takeWhile (fun y => !(y.id == x.id))

/-- The loop body of `Item._calc_sibling_no`: walk the previous siblings
(from the nearest one backwards) and count the `AGENDA_ITEM`s. -/
def siblingWalk : List AgendaItem → Nat
  | [] => 0
  | y :: rest => (if y.itemType == AGENDA_ITEM then 1 else 0) + siblingWalk rest

/-- `Item._calc_sibling_no()`: one plus the number of preceding siblings of
type `AGENDA_ITEM`; the loop visits the preceding siblings nearest-first. -/
def Item.calc_sibling_no (db : List AgendaItem) (x : AgendaItem) : Nat :=
  siblingWalk (prevSiblings db x).reverse + 1

/-- Modelled from the spec: `openslides.utils.utils.to_roman` is not under
`src/`; the spec (sections 4.1 and 8) describes it as the standard
subtractive-notation roman numeral, with `to_roman 1 = "I"`,
`to_roman 4 = "IV"`, `to_roman 1994 = "MCMXCIV"`. -/
def romanAux : List (Nat × String) → Nat → String
  | [], _ => ""
  | (v, sym) :: rest, n => String.join (List.replicate (n / v) sym) ++ romanAux rest (n % v)

/-- Modelled from the spec: standard subtractive-notation roman numeral. -/
def to_roman (n : Nat) : String :=
  romanAux [(1000, "M"), (900, "CM"), (500, "D"), (400, "CD"), (100, "C"),
            (90, "XC"), (50, "L"), (40, "XL"), (10, "X"), (9, "IX"),
            (5, "V"), (4, "IV"), (1, "I")] n

/-- `Item.calc_item_no()`: empty for organizational items; for a root
agenda item the sibling number rendered in the configured numeral system;
for a non root agenda item `'%s.%s' % (self.parent.calc_item_no(),
self._calc_sibling_no())` — the recursive call on the parent, a dot, and
the **decimal** sibling number.  The fuel bounds the parent recursion; a
missing parent row cannot occur under foreign-key integrity and yields
`""`. -/
def Item.calc_item_no (db : List AgendaItem) (system : String) :
    Nat → AgendaItem → String
  | 0, _ => ""
  | fuel + 1, x =>
      if x.itemType == AGENDA_ITEM then
        match x.parent with
        | none =>
            if system == "arabic" then
              toString (Item.calc_sibling_no db x)
            else
              to_roman (Item.calc_sibling_no db x)
        | some p =>
            match findItem db p with
            | some px =>
                Item.calc_item_no db system fuel px ++ "." ++
                  toString (Item.calc_sibling_no db x)
            | none => ""
      else
        ""

/-- The item number with the canonical fuel `db.length`; enough for every
rooted item. -/
def Item.item_number (db : List AgendaItem) (system : String)
    (x : AgendaItem) : String :=
  Item.calc_item_no db system db.length x

/-- `NumberFormatter.format(position, system)` as the spec words it: the
decimal string under `arabic`, the roman numeral under `roman`. -/
def NumberFormatter.format (position : Nat) (system : String) : String :=
  if system == "arabic" then toString position else to_roman position

/-- The spec-side sibling position: one plus the count of preceding
siblings of type `AGENDA_ITEM`. -/
def siblingPos (db : List AgendaItem) (x : AgendaItem) : Nat :=
  (prevSiblings db x).countP (fun y => y.itemType == AGENDA_ITEM) + 1

/-! ### Helper lemmas -/

theorem Speaker.phase_coming_iff (s : Speaker) :
    s.phase = Phase.coming ↔ s.begin_time = none := by
  unfold Speaker.phase
  cases hb : s.begin_time <;> cases he : s.end_time <;> simp

theorem pyOrZero_some (v : Int) : pyOrZero (some v) = v := by
  unfold pyOrZero
  by_cases h : v = 0 <;> simp [h]

theorem dbSave_map_id (db : List Speaker) (s : Speaker) :
    (dbSave db s).map (fun t => t.id) = db.map (fun t => t.id) := by
  unfold dbSave
  rw [List.map_map]
  apply List.map_congr_left
  intro t _
  simp only [Function.comp_apply]
  by_cases h : t.id == s.id
  · simp only [h, if_pos rfl]
    simp only [beq_iff_eq] at h
    simp [h]
  · simp [h]

theorem dbSave_cons (t : Speaker) (l : List Speaker) (s : Speaker) :
    dbSave (t :: l) s = (if t.id == s.id then s else t) :: dbSave l s := rfl

theorem find?_dbSave_self (db : List Speaker) (s : Speaker)
    (h : ∃ t ∈ db, t.id = s.id) :
    (dbSave db s).find? (fun x => x.id == s.id) = some s := by
  induction db with
  | nil => rcases h with ⟨t, ht, _⟩; exact absurd ht (List.not_mem_nil t)
  | cons t l ih =>
      rw [dbSave_cons]
      by_cases ht : t.id == s.id
      · rw [if_pos ht]
        exact List.find?_cons_of_pos _ (by simp)
      · rw [if_neg ht]
        rw [List.find?_cons_of_neg (p := fun x : Speaker => x.id == s.id) _ ht]
        apply ih
        rcases h with ⟨u, hu, hid⟩
        rcases List.mem_cons.mp hu with rfl | hu'
        · exact absurd (by simpa using hid) (by simpa using ht)
        · exact ⟨u, hu', hid⟩

theorem find?_dbSave_other (db : List Speaker) (s : Speaker) (i : Nat)
    (h : i ≠ s.id) :
    (dbSave db s).find? (fun x => x.id == i) = db.find? (fun x => x.id == i) := by
  induction db with
  | nil => rfl
  | cons t l ih =>
      rw [dbSave_cons]
      by_cases ht : t.id == s.id
      · have hti : t.id = s.id := by simpa using ht
        have h1 : ¬ ((fun x : Speaker => x.id == i) s) = true := by simp [Ne.symm h]
        have h2 : ¬ ((fun x : Speaker => x.id == i) t) = true := by simp [hti, Ne.symm h]
        rw [if_pos ht, List.find?_cons_of_neg (p := fun x : Speaker => x.id == i) _ h1,
          List.find?_cons_of_neg (p := fun x : Speaker => x.id == i) _ h2, ih]
      · rw [if_neg ht]
        by_cases hi : ((fun x : Speaker => x.id == i) t) = true
        · rw [List.find?_cons_of_pos (p := fun x : Speaker => x.id == i) _ hi,
            List.find?_cons_of_pos (p := fun x : Speaker => x.id == i) _ hi]
        · rw [List.find?_cons_of_neg (p := fun x : Speaker => x.id == i) _ hi,
            List.find?_cons_of_neg (p := fun x : Speaker => x.id == i) _ hi, ih]

theorem countP_dbSave (db : List Speaker) (s : Speaker) (p : Speaker → Bool) :
    (dbSave db s).countP p =
      db.countP (fun t => if t.id == s.id then p s else p t) := by
  unfold dbSave
  rw [List.countP_map]
  apply List.countP_congr
  intro t _
  by_cases h : t.id == s.id <;> simp [Function.comp, h]

theorem countP_or_le (l : List α) (p q : α → Bool) :
    l.countP (fun a => p a || q a) ≤ l.countP p + l.countP q := by
  induction l with
  | nil => simp
  | cons a l ih =>
      by_cases hp : p a <;> by_cases hq : q a <;>
        simp [List.countP_cons, hp, hq] <;> omega

theorem countP_dbSave_le_of_false (db : List Speaker) (s : Speaker)
    (p : Speaker → Bool) (hp : p s = false) :
    (dbSave db s).countP p ≤ db.countP p := by
  rw [countP_dbSave]
  apply List.countP_mono_left
  intro t _
  by_cases h : t.id == s.id <;> simp [h, hp]

theorem countP_dbSave_le (db : List Speaker) (s : Speaker) (p : Speaker → Bool) :
    (dbSave db s).countP p ≤ db.countP p + db.countP (fun t => t.id == s.id) := by
  rw [countP_dbSave]
  calc db.countP (fun t => if t.id == s.id then p s else p t)
      ≤ db.countP (fun t => p t || t.id == s.id) := by
        apply List.countP_mono_left
        intro t _
        by_cases h : t.id == s.id <;> simp [h]
    _ ≤ db.countP p + db.countP (fun t => t.id == s.id) := countP_or_le ..

theorem countP_id_le_one (db : List Speaker) (i : Nat)
    (hn : (db.map (fun t => t.id)).Nodup) :
    db.countP (fun t => t.id == i) ≤ 1 := by
  have h1 : db.countP (fun t => t.id == i) = (db.map (fun t => t.id)).countP (fun j => j == i) := by
    rw [List.countP_map]; rfl
  have h2 : (db.map (fun t => t.id)).countP (fun j => j == i) =
      (db.map (fun t => t.id)).count i := by
    rfl
  rw [h1, h2]
  exact List.nodup_iff_count_le_one.mp hn i

theorem countP_dbSave_eq_zero (db : List Speaker) (a s : Speaker)
    (q : Speaker → Bool) (hfilter : db.filter q = [a]) (hid : s.id = a.id)
    (hq : q s = false) :
    (dbSave db s).countP q = 0 := by
  rw [countP_dbSave]
  have hle : db.countP (fun t => if t.id == s.id then q s else q t) ≤
      db.countP (fun t => !(t.id == a.id) && q t) := by
    apply List.countP_mono_left
    intro t _
    by_cases h : t.id == s.id
    · simp [h, hq]
    · have : (t.id == a.id) = false := by
        rw [← hid]; simpa using h
      simp [h, this]
  have hz : db.countP (fun t => !(t.id == a.id) && q t) = 0 := by
    have := List.countP_filter (l := db) (p := fun t => !(t.id == a.id)) (q := q)
    rw [← this, hfilter]
    simp
  omega

/-! ### C1: enqueue errors -/

/-- The duplicate test of `SpeakerManager.add` as a proposition: the user
already has an entry in phase `coming` on this item. -/
theorem add_duplicate_check (db : List Speaker) (user : UserRef) (item : Nat) :
    (db.any (fun s => s.user == user.id && s.item == item && s.begin_time == none) = true) ↔
      ∃ s ∈ db, s.user = user.id ∧ s.item = item ∧ s.phase = Phase.coming := by
  rw [List.any_eq_true]
  constructor
  · rintro ⟨s, hs, hf⟩
    simp only [Bool.and_eq_true, beq_iff_eq] at hf
    exact ⟨s, hs, hf.1.1, hf.1.2, (Speaker.phase_coming_iff s).mpr hf.2⟩
  · rintro ⟨s, hs, h1, h2, h3⟩
    exact ⟨s, hs, by simp [h1, h2, (Speaker.phase_coming_iff s).mp h3]⟩

/-- C1 (counterexample): a user with a `speaking` entry on the item is
*not* rejected as a duplicate — `SpeakerManager.add` only filters on
`begin_time=None`, so a second entry is created although the claim
requires `DuplicateSpeakerError`. -/
theorem C1_counterexample :
    (Speaker.phase ⟨1, 7, 1, some 5, none, none⟩ = Phase.speaking) ∧
    ¬ (SpeakerManager.add [⟨1, 7, 1, some 5, none, none⟩] ⟨7, false⟩ 1 2 =
        Except.error AddError.duplicate) ∧
    (SpeakerManager.add [⟨1, 7, 1, some 5, none, none⟩] ⟨7, false⟩ 1 2 =
      Except.ok (⟨2, 7, 1, none, none, some 1⟩,
        [⟨1, 7, 1, some 5, none, none⟩, ⟨2, 7, 1, none, none, some 1⟩])) := by
  refine ⟨rfl, ?_, rfl⟩
  intro h
  rw [(rfl : SpeakerManager.add [⟨1, 7, 1, some 5, none, none⟩] ⟨7, false⟩ 1 2 =
      Except.ok (⟨2, 7, 1, none, none, some 1⟩,
        [⟨1, 7, 1, some 5, none, none⟩, ⟨2, 7, 1, none, none, some 1⟩]))] at h
  exact Except.noConfusion h

/-- C1 (amended): `enqueue` raises `DuplicateSpeakerError` iff the user
already has an entry in phase `coming` on the item (an entry in phase
`speaking` or `spoken` does not block); otherwise it raises
`AnonymousUserError` iff the user is anonymous; otherwise it appends a new
entry in phase `coming`. -/
theorem C1_amended (db : List Speaker) (user : UserRef) (item freshId : Nat) :
    (SpeakerManager.add db user item freshId = Except.error AddError.duplicate ↔
      ∃ s ∈ db, s.user = user.id ∧ s.item = item ∧ s.phase = Phase.coming) ∧
    (SpeakerManager.add db user item freshId = Except.error AddError.anonymous ↔
      (user.anonymous = true ∧
        ¬ ∃ s ∈ db, s.user = user.id ∧ s.item = item ∧ s.phase = Phase.coming)) ∧
    ((¬ ∃ s ∈ db, s.user = user.id ∧ s.item = item ∧ s.phase = Phase.coming) →
      user.anonymous = false →
      ∃ sp, SpeakerManager.add db user item freshId = Except.ok (sp, db ++ [sp]) ∧
        sp.phase = Phase.coming ∧ sp.user = user.id ∧ sp.item = item ∧
        sp.id = freshId) := by
  have hdup := add_duplicate_check db user item
  unfold SpeakerManager.add
  cases hD : db.any (fun s => s.user == user.id && s.item == item && s.begin_time == none) with
  | true =>
      rw [hD] at hdup
      simp only [if_pos rfl]
      refine ⟨by simp [hdup.mp rfl], ?_, ?_⟩
      · constructor
        · intro h; exact absurd h (by simp)
        · rintro ⟨_, hno⟩; exact absurd (hdup.mp rfl) hno
      · intro hno _; exact absurd (hdup.mp rfl) hno
  | false =>
      rw [hD] at hdup
      have hnodup : ¬ ∃ s ∈ db, s.user = user.id ∧ s.item = item ∧ s.phase = Phase.coming := by
        intro h
        exact absurd (hdup.mpr h) (by simp)
      simp only [Bool.false_eq_true, if_false]
      cases hA : user.anonymous with
      | true =>
          simp only [if_pos rfl]
          exact ⟨by simp [hnodup], by simp [hnodup], fun _ h => by simp [hA] at h⟩
      | false =>
          simp only [Bool.false_eq_true, if_false]
          refine ⟨by simp [hnodup], by simp [hA], ?_⟩
          intro _ _
          exact ⟨_, rfl, rfl, rfl, rfl, rfl⟩

/-- Witness for C1 (amended) at a concrete input: a non-anonymous user
with no coming entry is enqueued. -/
theorem C1_witness :
    ∃ sp, SpeakerManager.add [⟨1, 7, 1, some 5, none, none⟩] ⟨7, false⟩ 1 2 =
        Except.ok (sp, [⟨1, 7, 1, some 5, none, none⟩] ++ [sp]) ∧
      sp.phase = Phase.coming ∧ sp.user = 7 ∧ sp.item = 1 ∧ sp.id = 2 :=
  (C1_amended [⟨1, 7, 1, some 5, none, none⟩] ⟨7, false⟩ 1 2).2.2
    (by decide) rfl

/-! ### C7: repeated end of speach -/

/-- C7: `end_speach` on an entry that is already `spoken` does not fail: it
re-stamps `end_time` with the current time, the entry stays `spoken`, and
the stop-countdown side effect fires again exactly when the configuration
flag is set. -/
theorem C7_end_speach_idempotent (db : List Speaker) (self : Speaker)
    (now : Nat) (couple : Bool) (h : self.phase = Phase.spoken) :
    ∃ self2, Speaker.end_speach db self now couple =
        (dbSave db self2, (if couple then [CountdownEvent.stop] else []), self2) ∧
      self2.phase = Phase.spoken ∧ self2.end_time = some now ∧
      self2.begin_time = self.begin_time ∧ self2.id = self.id := by
  refine ⟨{ self with end_time := some now }, rfl, ?_, rfl, rfl, rfl⟩
  unfold Speaker.phase at h ⊢
  cases hb : self.begin_time with
  | none => rw [hb] at h; simp at h
  | some b => simp

/-- Witness for C7: a concrete already-spoken entry. -/
theorem C7_witness :
    ∃ self2, Speaker.end_speach [⟨1, 3, 1, some 1, some 2, none⟩]
        ⟨1, 3, 1, some 1, some 2, none⟩ 9 true =
        (dbSave [⟨1, 3, 1, some 1, some 2, none⟩] self2, [CountdownEvent.stop], self2) ∧
      self2.phase = Phase.spoken ∧ self2.end_time = some 9 ∧
      self2.begin_time = some 1 ∧ self2.id = 1 := by
  have := C7_end_speach_idempotent [⟨1, 3, 1, some 1, some 2, none⟩]
    ⟨1, 3, 1, some 1, some 2, none⟩ 9 true (by decide)
  simpa using this

/-! ### C4: begin speach while another speaker is speaking -/

/-- C4 (counterexample): while A (id 1) is speaking, `begin_speach` on the
already-`spoken` entry B (id 2) of the same item does not put B into phase
`speaking`: the saved instance keeps its old `end_time`, so B stays
`spoken`, although the claim predicts phase `speaking` for every other
entry B. -/
theorem C4_counterexample :
    (Speaker.begin_speach
        [⟨1, 1, 1, some 1, none, none⟩, ⟨2, 2, 1, some 0, some 1, none⟩]
        ⟨2, 2, 1, some 0, some 1, none⟩ 10 true =
      Except.ok ([⟨1, 1, 1, some 1, some 10, none⟩, ⟨2, 2, 1, some 10, some 1, none⟩],
        [CountdownEvent.stop, CountdownEvent.reset, CountdownEvent.start])) ∧
    ¬ (Speaker.phase ⟨2, 2, 1, some 10, some 1, none⟩ = Phase.speaking) := by
  exact ⟨rfl, by decide⟩

/-- C4 (amended): while A is the (only) speaking entry of the item,
`begin_speach` on another entry B of the item *whose end time is unset*
(so B has not spoken yet) moves A to phase `spoken` with `end_time = now`,
moves B to phase `speaking` with its weight cleared and
`begin_time = now`, and fires exactly the countdown effects stop, reset,
start in this order when the couple-countdown flag is set, and none
otherwise. -/
theorem C4_amended (db : List Speaker) (A B : Speaker) (now : Nat)
    (couple : Bool) (hA : speakingOn db B.item = [A]) (hB : B ∈ db)
    (hne : B.id ≠ A.id) (hBend : B.end_time = none) :
    ∃ db2, Speaker.begin_speach db B now couple =
        Except.ok (db2,
          if couple then [CountdownEvent.stop, CountdownEvent.reset, CountdownEvent.start]
          else []) ∧
      db2.find? (fun s => s.id == A.id) = some { A with end_time := some now } ∧
      Speaker.phase { A with end_time := some now } = Phase.spoken ∧
      db2.find? (fun s => s.id == B.id) =
        some { B with weight := none, begin_time := some now } ∧
      Speaker.phase { B with weight := none, begin_time := some now } = Phase.speaking ∧
      ({ B with weight := none, begin_time := some now } : Speaker).weight = none := by
  have hAmem : A ∈ db ∧ (A.item == B.item && A.end_time == none &&
      !(A.begin_time == none)) = true := by
    have : A ∈ speakingOn db B.item := by rw [hA]; exact List.mem_singleton.mpr rfl
    exact List.mem_filter.mp this
  have hAb : A.begin_time ≠ none := by
    have := hAmem.2
    simp only [Bool.and_eq_true, Bool.not_eq_true'] at this
    simpa using this.2
  refine ⟨dbSave (dbSave db { A with end_time := some now })
      { B with weight := none, begin_time := some now }, ?_, ?_, ?_, ?_, ?_, rfl⟩
  · unfold Speaker.begin_speach
    rw [hA]
    unfold Speaker.end_speach
    cases couple <;> rfl
  · rw [find?_dbSave_other _ _ _ (by simpa using hne.symm)]
    exact find?_dbSave_self db { A with end_time := some now } ⟨A, hAmem.1, rfl⟩
  · unfold Speaker.phase
    cases hb : A.begin_time with
    | none => exact absurd hb hAb
    | some b => simp
  · have hfB : (if B.id == ({ A with end_time := some now } : Speaker).id
        then { A with end_time := some now } else B) = B := by
      rw [if_neg (by simpa using hne)]
    have hBmem : B ∈ dbSave db { A with end_time := some now } :=
      List.mem_map.mpr ⟨B, hB, hfB⟩
    have := find?_dbSave_self (dbSave db { A with end_time := some now })
      { B with weight := none, begin_time := some now } ⟨B, hBmem, rfl⟩
    simpa using this
  · unfold Speaker.phase
    rw [hBend]

/-- Witness for C4 (amended): concrete two-entry queue, coupled countdown. -/
theorem C4_witness :
    ∃ db2, Speaker.begin_speach
        [⟨1, 1, 1, some 1, none, none⟩, ⟨2, 2, 1, none, none, some 1⟩]
        ⟨2, 2, 1, none, none, some 1⟩ 10 true =
        Except.ok (db2, [CountdownEvent.stop, CountdownEvent.reset, CountdownEvent.start]) ∧
      db2.find? (fun s => s.id == 1) =
        some ⟨1, 1, 1, some 1, some 10, none⟩ ∧
      Speaker.phase ⟨1, 1, 1, some 1, some 10, none⟩ = Phase.spoken ∧
      db2.find? (fun s => s.id == 2) =
        some ⟨2, 2, 1, some 10, none, none⟩ ∧
      Speaker.phase ⟨2, 2, 1, some 10, none, none⟩ = Phase.speaking ∧
      (⟨2, 2, 1, some 10, none, none⟩ : Speaker).weight = none := by
  have := C4_amended
    [⟨1, 1, 1, some 1, none, none⟩, ⟨2, 2, 1, none, none, some 1⟩]
    ⟨1, 1, 1, some 1, none, none⟩ ⟨2, 2, 1, none, none, some 1⟩ 10 true
    (by decide) (by decide) (by decide) rfl
  simpa using this

/-! ### C8: enqueue weight -/

/-- The weights of the `coming` entries of an item (the spec-side reading
of "max existing weight"). -/
def comingWeights (db : List Speaker) (item : Nat) : List Int :=
  (db.filter (fun s => s.item == item && s.begin_time == none)).filterMap
    (fun s => s.weight)

/-- The maximum weight among the coming entries, if any. -/
def comingMax (db : List Speaker) (item : Nat) : Option Int :=
  aggMax (comingWeights db item)

theorem aggMax_go (l : List Int) : ∀ a : Int,
    ∃ m, l.foldl (fun x w =>
        match x with
        | none => some w
        | some v => some (max v w)) (some a) = some m ∧
      (m = a ∨ m ∈ l) ∧ a ≤ m ∧ ∀ w ∈ l, w ≤ m := by
  induction l with
  | nil => intro a; exact ⟨a, rfl, Or.inl rfl, le_refl a, by simp⟩
  | cons w l ih =>
      intro a
      rcases ih (max a w) with ⟨m, hfold, hmem, hle, hall⟩
      refine ⟨m, hfold, ?_, le_trans (le_max_left a w) hle, ?_⟩
      · rcases hmem with rfl | hm
        · rcases max_choice a w with h | h
          · exact Or.inl h
          · exact Or.inr (by rw [h]; exact List.mem_cons_self w l)
        · exact Or.inr (List.mem_cons_of_mem w hm)
      · intro v hv
        rcases List.mem_cons.mp hv with rfl | hv'
        · exact le_trans (le_max_right a v) hle
        · exact hall v hv'

theorem aggMax_none_iff (l : List Int) : aggMax l = none ↔ l = [] := by
  cases l with
  | nil => simp [aggMax]
  | cons w l =>
      unfold aggMax
      rcases aggMax_go l w with ⟨m, hfold, _, _, _⟩
      simp only [List.foldl_cons]
      rw [hfold]
      simp

theorem aggMax_spec (l : List Int) (m : Int) (h : aggMax l = some m) :
    m ∈ l ∧ ∀ w ∈ l, w ≤ m := by
  cases l with
  | nil => simp [aggMax] at h
  | cons w l =>
      unfold aggMax at h
      rcases aggMax_go l w with ⟨m', hfold, hmem, hle, hall⟩
      simp only [List.foldl_cons] at h
      rw [hfold] at h
      obtain rfl : m' = m := by simpa using h
      constructor
      · rcases hmem with rfl | hm
        · exact List.mem_cons_self _ _
        · exact List.mem_cons_of_mem w hm
      · intro v hv
        rcases List.mem_cons.mp hv with rfl | hv'
        · exact hle
        · exact hall v hv'

/-- When every started entry of the item has a NULL weight, the aggregate
over all of the item's entries sees exactly the coming weights. -/
theorem itemWeights_eq_comingWeights (db : List Speaker) (item : Nat)
    (hnw : ∀ s ∈ db, s.item = item → s.begin_time ≠ none → s.weight = none) :
    itemWeights db item = comingWeights db item := by
  induction db with
  | nil => rfl
  | cons t l ih =>
      have ih' := ih (fun s hs h1 h2 => hnw s (List.mem_cons_of_mem t hs) h1 h2)
      by_cases hit : t.item = item
      · by_cases hbt : t.begin_time = none
        · unfold itemWeights comingWeights at ih' ⊢
          simp only [List.filter_cons, hit, hbt]
          simp only [beq_self_eq_true, Bool.and_self, if_pos]
          simp only [List.filterMap_cons]
          cases hw : t.weight <;> simp [ih', hw]
        · have hwn : t.weight = none := hnw t (List.mem_cons_self t l) hit hbt
          unfold itemWeights comingWeights at ih' ⊢
          simp only [List.filter_cons, hit, beq_self_eq_true]
          have h1 : (t.begin_time == none) = false := by
            cases h : t.begin_time
            · exact absurd h hbt
            · simp
          simp only [h1, Bool.and_false, Bool.true_and, if_false, if_pos]
          simp [List.filterMap_cons, hwn, ih']
      · have h0 : (t.item == item) = false := by simpa using hit
        unfold itemWeights comingWeights at ih' ⊢
        simp [List.filter_cons, h0, ih']

/-- C8: a successful enqueue assigns weight `max coming weight + 1`, or `1`
when the item has no coming entry; started entries carry no weight and do
not contribute.  The hypotheses state the data-model invariants the claim
leans on: started entries have NULL weight, coming entries carry one. -/
theorem C8_enqueue_weight (db : List Speaker) (user : UserRef)
    (item freshId : Nat) (sp : Speaker) (db2 : List Speaker)
    (hnw : ∀ s ∈ db, s.item = item → s.begin_time ≠ none → s.weight = none)
    (hcw : ∀ s ∈ db, s.item = item → s.begin_time = none → s.weight ≠ none)
    (hok : SpeakerManager.add db user item freshId = Except.ok (sp, db2)) :
    (∀ m, comingMax db item = some m →
      sp.weight = some (m + 1) ∧
      (∃ s ∈ db, s.item = item ∧ s.begin_time = none ∧ s.weight = some m) ∧
      (∀ s ∈ db, s.item = item → s.begin_time = none →
        ∀ w, s.weight = some w → w ≤ m)) ∧
    (comingMax db item = none →
      sp.weight = some 1 ∧
      ¬ ∃ s ∈ db, s.item = item ∧ s.begin_time = none) := by
  have hw : sp.weight = some (pyOrZero (aggMax (itemWeights db item)) + 1) := by
    unfold SpeakerManager.add at hok
    by_cases h1 : db.any (fun s => s.user == user.id && s.item == item &&
        s.begin_time == none) = true
    · rw [if_pos h1] at hok; cases hok
    · rw [if_neg h1] at hok
      by_cases h2 : user.anonymous = true
      · rw [if_pos h2] at hok; cases hok
      · rw [if_neg h2] at hok
        have := congrArg (fun r =>
          match r with
          | Except.ok (s, _) => s.weight
          | Except.error _ => none) hok
        simpa using this.symm
  rw [itemWeights_eq_comingWeights db item hnw] at hw
  constructor
  · intro m hm
    unfold comingMax at hm
    rcases aggMax_spec _ _ hm with ⟨hmem, hall⟩
    refine ⟨by rw [hw, hm, pyOrZero_some], ?_, ?_⟩
    · rcases List.mem_filterMap.mp hmem with ⟨s, hs, hsw⟩
      rcases List.mem_filter.mp hs with ⟨hsdb, hpred⟩
      simp only [Bool.and_eq_true, beq_iff_eq] at hpred
      exact ⟨s, hsdb, hpred.1, hpred.2, hsw⟩
    · intro s hs h1 h2 w hsw
      apply hall
      apply List.mem_filterMap.mpr
      exact ⟨s, List.mem_filter.mpr ⟨hs, by simp [h1, h2]⟩, hsw⟩
  · intro hm
    unfold comingMax at hm
    have hempty : comingWeights db item = [] := (aggMax_none_iff _).mp hm
    refine ⟨by rw [hw, hm]; rfl, ?_⟩
    rintro ⟨s, hs, h1, h2⟩
    rcases Option.ne_none_iff_exists'.mp (hcw s hs h1 h2) with ⟨w, hsw⟩
    have : w ∈ comingWeights db item :=
      List.mem_filterMap.mpr ⟨s, List.mem_filter.mpr ⟨hs, by simp [h1, h2]⟩, hsw⟩
    rw [hempty] at this
    exact absurd this (List.not_mem_nil w)

/-- A concrete five-entry queue used to witness C8: one spoken entry, one
speaking entry, three coming entries with weights 1, 3, 2. -/
def c8db : List Speaker :=
  [⟨1, 1, 1, some 0, some 1, none⟩, ⟨2, 2, 1, some 6, none, none⟩,
   ⟨3, 3, 1, none, none, some 1⟩, ⟨4, 4, 1, none, none, some 3⟩,
   ⟨5, 5, 1, none, none, some 2⟩]

/-- Witness for C8: three coming entries with weights 1,3,2 and two started
ones — the new entry gets weight `max + 1 = 4`. -/
theorem C8_witness :
    (∀ m, comingMax c8db 1 = some m →
      (⟨6, 9, 1, none, none, some 4⟩ : Speaker).weight = some (m + 1) ∧
      (∃ s ∈ c8db, s.item = 1 ∧ s.begin_time = none ∧ s.weight = some m) ∧
      (∀ s ∈ c8db, s.item = 1 → s.begin_time = none →
        ∀ w, s.weight = some w → w ≤ m)) ∧
    (comingMax c8db 1 = none →
      (⟨6, 9, 1, none, none, some 4⟩ : Speaker).weight = some 1 ∧
      ¬ ∃ s ∈ c8db, s.item = 1 ∧ s.begin_time = none) :=
  C8_enqueue_weight c8db ⟨9, false⟩ 1 6 ⟨6, 9, 1, none, none, some 4⟩
    ((c8db ++ [⟨6, 9, 1, none, none, some 4⟩]) : List Speaker)
    (by decide) (by decide) (by rfl)

/-! ### C5: at most one speaking entry -/

theorem foldl_max_le (l : List Nat) :
    ∀ init : Nat, init ≤ l.foldl max init ∧ ∀ a ∈ l, a ≤ l.foldl max init := by
  induction l with
  | nil => intro init; exact ⟨le_refl _, by simp⟩
  | cons b l ih =>
      intro init
      rcases ih (max init b) with ⟨h1, h2⟩
      refine ⟨le_trans (le_max_left init b) h1, ?_⟩
      intro a ha
      rcases List.mem_cons.mp ha with rfl | ha'
      · exact le_trans (le_max_right init a) h1
      · exact h2 a ha'

theorem nextId_fresh (db : List Speaker) :
    ¬ nextId db ∈ db.map (fun s => s.id) := by
  intro h
  have := (foldl_max_le (db.map (fun s => s.id)) 0).2 _ h
  unfold nextId at this
  omega

/-- Shape of a successful `SpeakerManager.add`: the new entry is appended,
carries the fresh id, and is in phase `coming`. -/
theorem add_ok_shape (db : List Speaker) (user : UserRef) (item freshId : Nat)
    (sp : Speaker) (db2 : List Speaker)
    (h : SpeakerManager.add db user item freshId = Except.ok (sp, db2)) :
    db2 = db ++ [sp] ∧ sp.id = freshId ∧ sp.begin_time = none := by
  unfold SpeakerManager.add at h
  by_cases h1 : db.any (fun s => s.user == user.id && s.item == item &&
      s.begin_time == none) = true
  · rw [if_pos h1] at h; cases h
  · rw [if_neg h1] at h
    by_cases h2 : user.anonymous = true
    · rw [if_pos h2] at h; cases h
    · rw [if_neg h2] at h
      simp only [Except.ok.injEq, Prod.mk.injEq] at h
      rcases h with ⟨hsp, hdb⟩
      subst hsp
      exact ⟨hdb.symm, rfl, rfl⟩

/-- Shape of a successful `begin_speach`: the primary keys of the table
are untouched (rows are only updated in place). -/
theorem begin_speach_ids (db : List Speaker) (self : Speaker) (now : Nat)
    (couple : Bool) (db2 : List Speaker) (evs : List CountdownEvent)
    (h : Speaker.begin_speach db self now couple = Except.ok (db2, evs)) :
    db2.map (fun s => s.id) = db.map (fun s => s.id) := by
  unfold Speaker.begin_speach at h
  rcases hsp : speakingOn db self.item with _ | ⟨a, _ | ⟨b, rest⟩⟩ <;> rw [hsp] at h
  · simp only [Except.ok.injEq, Prod.mk.injEq] at h
    rw [← h.1, dbSave_map_id]
  · simp only [Except.ok.injEq, Prod.mk.injEq] at h
    rw [← h.1, dbSave_map_id]
    show ((dbSave db { a with end_time := some now }).map (fun s => s.id)) =
      db.map (fun s => s.id)
    exact dbSave_map_id db _
  · cases h

theorem applyOp_nodup (couple : Bool) (db : List Speaker) (op : QueueOp)
    (hn : (db.map (fun s => s.id)).Nodup) :
    ((applyOp couple db op).map (fun s => s.id)).Nodup := by
  cases op with
  | enqueue user item =>
      cases hadd : SpeakerManager.add db user item (nextId db) with
      | error e => simpa only [applyOp, hadd] using hn
      | ok r =>
          simp only [applyOp, hadd]
          rcases add_ok_shape db user item (nextId db) r.1 r.2 (by rw [hadd]) with
            ⟨hdb, hid, _⟩
          simp only [hdb, List.map_append, List.map_cons, List.map_nil]
          rw [List.nodup_append]
          refine ⟨hn, List.nodup_singleton _, ?_⟩
          intro x hx hmem
          have : x = nextId db := by
            rcases List.mem_singleton.mp hmem with rfl
            exact hid
          subst this
          exact nextId_fresh db hx
  | begin sid now =>
      cases hfind : db.find? (fun s => s.id == sid) with
      | none => simpa only [applyOp, hfind] using hn
      | some self =>
          cases hbs : Speaker.begin_speach db self now couple with
          | error e => simpa only [applyOp, hfind, hbs] using hn
          | ok r =>
              simp only [applyOp, hfind, hbs]
              rw [begin_speach_ids db self now couple r.1 r.2 (by rw [hbs])]
              exact hn
  | finish sid now =>
      cases hfind : db.find? (fun s => s.id == sid) with
      | none => simpa only [applyOp, hfind] using hn
      | some self =>
          simp only [applyOp, hfind, Speaker.end_speach]
          rw [dbSave_map_id]
          exact hn
  | remove sid =>
      simp only [applyOp]
      exact ((db.filter_sublist).map (fun s => s.id)).nodup hn

theorem applyOp_speaking (couple : Bool) (db : List Speaker) (op : QueueOp)
    (i : Nat) (hn : (db.map (fun s => s.id)).Nodup)
    (hs : db.countP (speakPred i) ≤ 1) :
    (applyOp couple db op).countP (speakPred i) ≤ 1 := by
  cases op with
  | enqueue user item =>
      cases hadd : SpeakerManager.add db user item (nextId db) with
      | error e => simpa only [applyOp, hadd] using hs
      | ok r =>
          simp only [applyOp, hadd]
          rcases add_ok_shape db user item (nextId db) r.1 r.2 (by rw [hadd]) with
            ⟨hdb, _, hbeg⟩
          rw [hdb, List.countP_append]
          have : (speakPred i) r.1 = false := by
            unfold speakPred
            rw [hbeg]
            simp
          simp [List.countP_cons, this]
          omega
  | begin sid now =>
      cases hfind : db.find? (fun s => s.id == sid) with
      | none => simpa only [applyOp, hfind] using hs
      | some self =>
          cases hbs : Speaker.begin_speach db self now couple with
          | error e => simpa only [applyOp, hfind, hbs] using hs
          | ok r =>
              simp only [applyOp, hfind, hbs]
              have hself2 : ∀ w b, (speakPred i { self with weight := w, begin_time := b } = true) →
                  i = self.item := by
                intro w b hq
                unfold speakPred at hq
                simp only [Bool.and_eq_true, beq_iff_eq] at hq
                exact hq.1.1.symm
              unfold Speaker.begin_speach at hbs
              rcases hsp : speakingOn db self.item with _ | ⟨a, _ | ⟨b, rest⟩⟩ <;>
                rw [hsp] at hbs
              · simp only [Except.ok.injEq] at hbs
                rw [← hbs]
                show List.countP (speakPred i)
                    (dbSave db { self with weight := none, begin_time := some now }) ≤ 1
                by_cases hq : speakPred i { self with weight := none, begin_time := some now } = true
                · have hii : i = self.item := hself2 _ _ hq
                  have hzero : db.countP (speakPred i) = 0 := by
                    have hf : db.filter (speakPred i) = [] := by
                      rw [hii]; exact hsp
                    rw [List.countP_eq_length_filter, hf]
                    rfl
                  calc (dbSave db { self with weight := none, begin_time := some now }).countP
                        (speakPred i)
                      ≤ db.countP (speakPred i) +
                          db.countP (fun t => t.id ==
                            ({ self with weight := none, begin_time := some now } : Speaker).id) :=
                        countP_dbSave_le ..
                    _ ≤ 0 + 1 := by
                        rw [hzero]
                        exact Nat.add_le_add (le_refl 0) (countP_id_le_one db _ hn)
                    _ ≤ 1 := by omega
                · have hq' : speakPred i { self with weight := none, begin_time := some now } = false :=
                    Bool.not_eq_true _ ▸ (by simpa using hq)
                  exact le_trans (countP_dbSave_le_of_false db _ _ hq') hs
              · simp only [Except.ok.injEq] at hbs
                rw [← hbs]
                show List.countP (speakPred i)
                    (dbSave (dbSave db { a with end_time := some now })
                      { self with weight := none, begin_time := some now }) ≤ 1
                have hqa : speakPred i { a with end_time := some now } = false := by
                  unfold speakPred
                  simp
                by_cases hq : speakPred i { self with weight := none, begin_time := some now } = true
                · have hii : i = self.item := hself2 _ _ hq
                  have hzero : (dbSave db { a with end_time := some now }).countP (speakPred i) = 0 :=
                    countP_dbSave_eq_zero db a { a with end_time := some now }
                      (speakPred i) (by rw [hii]; exact hsp) rfl hqa
                  calc (dbSave (dbSave db { a with end_time := some now })
                        { self with weight := none, begin_time := some now }).countP (speakPred i)
                      ≤ (dbSave db { a with end_time := some now }).countP (speakPred i) +
                          (dbSave db { a with end_time := some now }).countP
                            (fun t => t.id ==
                              ({ self with weight := none, begin_time := some now } : Speaker).id) :=
                        countP_dbSave_le ..
                    _ ≤ 0 + 1 := by
                        rw [hzero]
                        refine Nat.add_le_add (le_refl 0) (countP_id_le_one _ _ ?_)
                        rw [dbSave_map_id]
                        exact hn
                    _ ≤ 1 := by omega
                · have hq' : speakPred i { self with weight := none, begin_time := some now } = false := by
                    simpa using hq
                  calc (dbSave (dbSave db { a with end_time := some now })
                        { self with weight := none, begin_time := some now }).countP (speakPred i)
                      ≤ (dbSave db { a with end_time := some now }).countP (speakPred i) :=
                        countP_dbSave_le_of_false _ _ _ hq'
                    _ ≤ db.countP (speakPred i) := countP_dbSave_le_of_false _ _ _ hqa
                    _ ≤ 1 := hs
              · cases hbs
  | finish sid now =>
      cases hfind : db.find? (fun s => s.id == sid) with
      | none => simpa only [applyOp, hfind] using hs
      | some self =>
          simp only [applyOp, hfind, Speaker.end_speach]
          have hq : speakPred i { self with end_time := some now } = false := by
            unfold speakPred; simp
          exact le_trans (countP_dbSave_le_of_false db _ _ hq) hs
  | remove sid =>
      simp only [applyOp]
      rw [List.countP_filter]
      calc db.countP (fun s => speakPred i s && !(s.id == sid))
          ≤ db.countP (speakPred i) := by
            apply List.countP_mono_left
            intro t _ h
            exact (Bool.and_eq_true _ _ ▸ h).1
        _ ≤ 1 := hs

/-- C5: for every item, starting from a table with distinct primary keys
and at most one `speaking` entry of that item, any sequence of queue
operations preserves "at most one speaking entry of that item".  Taking
`ops` to be each prefix of a longer sequence gives the invariant after
each operation. -/
theorem C5_at_most_one_speaking (couple : Bool) (db : List Speaker)
    (ops : List QueueOp) (item : Nat)
    (hn : (db.map (fun s => s.id)).Nodup)
    (hs : (speakingOn db item).length ≤ 1) :
    (speakingOn (runOps couple db ops) item).length ≤ 1 := by
  have hcount : ∀ d : List Speaker, (speakingOn d item).length = d.countP (speakPred item) := by
    intro d
    unfold speakingOn
    rw [List.countP_eq_length_filter]
  rw [hcount] at hs ⊢
  unfold runOps
  induction ops generalizing db with
  | nil => exact hs
  | cons op ops ih =>
      rw [List.foldl_cons]
      exact ih (applyOp couple db op) (applyOp_nodup couple db op hn)
        (applyOp_speaking couple db op item hn hs)

/-- Witness for C5: a concrete run enqueuing two users, promoting both in
turn and removing one entry keeps at most one speaking entry. -/
theorem C5_witness :
    (speakingOn (runOps true
      [⟨1, 2, 1, none, none, some 1⟩]
      [QueueOp.enqueue ⟨3, false⟩ 1, QueueOp.begin 1 5,
       QueueOp.begin 2 6, QueueOp.enqueue ⟨4, false⟩ 1,
       QueueOp.remove 1]) 1).length ≤ 1 :=
  C5_at_most_one_speaking true [⟨1, 2, 1, none, none, some 1⟩]
    [QueueOp.enqueue ⟨3, false⟩ 1, QueueOp.begin 1 5,
     QueueOp.begin 2 6, QueueOp.enqueue ⟨4, false⟩ 1,
     QueueOp.remove 1] 1 (by decide) (by decide)

/-! ### List-view lemmas (C3, C9, C10) -/

theorem enum_map_proj {α β γ : Type} (f : Nat → α → β) (g : β → γ) (h : Nat → γ)
    (hg : ∀ j a, g (f j a) = h j) :
    ∀ (l : List α) (n : Nat),
      ((List.enumFrom n l).map (fun p => f p.1 p.2)).map g =
        (List.range' n l.length).map h := by
  intro l
  induction l with
  | nil => intro n; rfl
  | cons a l ih =>
      intro n
      rw [List.enumFrom_cons, List.map_cons, List.map_cons, hg,
        List.length_cons, List.range'_succ, List.map_cons, ih (n + 1)]

theorem enum_countP_proj {α : Type} (p : Nat → Bool) :
    ∀ (l : List α) (n : Nat),
      (List.enumFrom n l).countP (fun pr => p pr.1) =
        (List.range' n l.length).countP p := by
  intro l
  induction l with
  | nil => intro n; rfl
  | cons a l ih =>
      intro n
      rw [List.enumFrom_cons, List.countP_cons, List.length_cons,
        List.range'_succ, List.countP_cons, ih (n + 1)]

/-- `countP` of an index-only predicate over a rendered group. -/
theorem countP_enum_map {α β : Type} (f : Nat → α → β) (q : β → Bool)
    (p : Nat → Bool) (hq : ∀ j a, q (f j a) = p j) (l : List α) :
    ((List.enum l).map (fun pr => f pr.1 pr.2)).countP q =
      (List.range l.length).countP p := by
  rw [List.countP_map]
  have hiff : ∀ pr ∈ List.enum l,
      ((q ∘ fun pr : Nat × α => f pr.1 pr.2) pr = true ↔
        (fun pr : Nat × α => p pr.1) pr = true) := by
    intro pr _
    simp only [Function.comp_apply]
    rw [hq pr.1 pr.2]
  rw [List.countP_congr hiff]
  rw [List.range_eq_range']
  exact enum_countP_proj p l 0

/-- Projection of an index-only view field over a rendered group. -/
theorem map_enum_map {α β γ : Type} (f : Nat → α → β) (g : β → γ) (h : Nat → γ)
    (hg : ∀ j a, g (f j a) = h j) (l : List α) :
    (((List.enum l).map (fun pr => f pr.1 pr.2)).map g) =
      (List.range l.length).map h := by
  rw [List.range_eq_range']
  exact enum_map_proj f g h hg l 0

theorem countP_range_zero_flag (n : Nat) :
    (List.range n).countP (fun j => j == 0) = if n = 0 then 0 else 1 := by
  induction n with
  | zero => rfl
  | succ n ih =>
      rw [List.range_succ, List.countP_append, ih]
      by_cases hn : n = 0
      · subst hn; rfl
      · have : ((n == 0) : Bool) = false := by simpa using hn
        simp [List.countP_cons, this, hn]

theorem countP_range_int (n : Nat) (c : Int) :
    (List.range n).countP (fun j : Nat => ((j : Int) == c)) =
      if 0 ≤ c ∧ c < (n : Int) then 1 else 0 := by
  induction n with
  | zero =>
      have h0 : ¬ (0 ≤ c ∧ c < ((0 : Nat) : Int)) := by
        push_cast
        omega
      rw [if_neg h0]
      rfl
  | succ n ih =>
      rw [List.range_succ, List.countP_append, ih]
      have hlast : (List.countP (fun j : Nat => ((j : Int) == c)) [n]) =
          if (n : Int) = c then 1 else 0 := by
        by_cases hc : (n : Int) = c
        · simp [List.countP_cons, hc]
        · simp [List.countP_cons, hc]
      rw [hlast]
      by_cases hc : (n : Int) = c
      · rw [if_pos hc, if_neg (show ¬ (0 ≤ c ∧ c < (n : Int)) by omega),
          if_pos (show 0 ≤ c ∧ c < ((n + 1 : Nat) : Int) by push_cast; omega)]
      · rw [if_neg hc]
        by_cases h4 : 0 ≤ c ∧ c < (n : Int)
        · rw [if_pos h4, if_pos (show 0 ≤ c ∧ c < ((n + 1 : Nat) : Int) by push_cast; omega)]
        · rw [if_neg h4, if_neg (show ¬ (0 ≤ c ∧ c < ((n + 1 : Nat) : Int)) by push_cast; omega)]

theorem mem_oldViews (db : List Speaker) (item : Nat) (oc : Int)
    (v : SpeakerView) (h : v ∈ oldViews db item oc) :
    v.stype = "old_speaker" ∧
      ∃ n : Int, v.prefixVal = PrefixVal.s ("-" ++ toString n) := by
  unfold oldViews at h
  rcases List.mem_map.mp h with ⟨pr, _, rfl⟩
  exact ⟨rfl, oc - (pr.1 : Int), rfl⟩

theorem mem_comingViews (db : List Speaker) (item : Nat) (cc : Int)
    (v : SpeakerView) (h : v ∈ comingViews db item cc) :
    v.stype = "coming_speaker" ∧ ∃ n : Int, v.prefixVal = PrefixVal.i n := by
  unfold comingViews at h
  rcases List.mem_map.mp h with ⟨pr, _, rfl⟩
  exact ⟨rfl, (pr.1 : Int) + 1, rfl⟩

/-- Any successful list view splits into the three rendered groups. -/
theorem get_list_layout (db : List Speaker) (item : Nat) (oc cc : Int)
    (l : List SpeakerView)
    (h : Item.get_list_of_speakers db item (some oc) (some cc) = Except.ok l) :
    l = oldViews db item oc ++ (actuals db item).map mkActualView ++
      comingViews db item cc := by
  unfold Item.get_list_of_speakers at h
  rcases hact : actuals db item with _ | ⟨a, _ | ⟨b, rest⟩⟩ <;> rw [hact] at h
  · simp only [Except.ok.injEq] at h
    rw [← h]
    simp
  · simp only [Except.ok.injEq] at h
    rw [← h]
    simp
  · cases h

/-- C10: old and actual speakers carry string prefixes (`"-<n>"` and
`"0"`), coming speakers carry integer prefixes. -/
theorem C10_prefix_types (db : List Speaker) (item : Nat) (oc cc : Int)
    (l : List SpeakerView)
    (h : Item.get_list_of_speakers db item (some oc) (some cc) = Except.ok l) :
    ∀ v ∈ l,
      (v.stype = "old_speaker" →
        ∃ n : Int, v.prefixVal = PrefixVal.s ("-" ++ toString n)) ∧
      (v.stype = "actual_speaker" → v.prefixVal = PrefixVal.s "0") ∧
      (v.stype = "coming_speaker" → ∃ n : Int, v.prefixVal = PrefixVal.i n) := by
  intro v hv
  rw [get_list_layout db item oc cc l h] at hv
  rcases List.mem_append.mp hv with hv' | hcom
  · rcases List.mem_append.mp hv' with hold | hact
    · rcases mem_oldViews db item oc v hold with ⟨hst, hpre⟩
      refine ⟨fun _ => hpre, fun hcontra => ?_, fun hcontra => ?_⟩
      · rw [hst] at hcontra; exact absurd hcontra (by decide)
      · rw [hst] at hcontra; exact absurd hcontra (by decide)
    · rcases List.mem_map.mp hact with ⟨a, _, rfl⟩
      refine ⟨fun hcontra => ?_, fun _ => rfl, fun hcontra => ?_⟩
      · simp [mkActualView] at hcontra
      · simp [mkActualView] at hcontra
  · rcases mem_comingViews db item cc v hcom with ⟨hst, hpre⟩
    refine ⟨fun hcontra => ?_, fun hcontra => ?_, fun _ => hpre⟩
    · rw [hst] at hcontra; exact absurd hcontra (by decide)
    · rw [hst] at hcontra; exact absurd hcontra (by decide)

/-- The nine-entry table of the worked example in the spec: five spoken,
one speaking, three coming speakers on item 1. -/
def exampleDb : List Speaker :=
  [⟨1, 1, 1, some 0, some 1, none⟩, ⟨2, 2, 1, some 0, some 2, none⟩,
   ⟨3, 3, 1, some 0, some 3, none⟩, ⟨4, 4, 1, some 0, some 4, none⟩,
   ⟨5, 5, 1, some 0, some 5, none⟩, ⟨6, 6, 1, some 6, none, none⟩,
   ⟨7, 7, 1, none, none, some 1⟩, ⟨8, 8, 1, none, none, some 2⟩,
   ⟨9, 9, 1, none, none, some 3⟩]

/-- The list view of `exampleDb` with `old_speakers_count = 2` and
`coming_speakers_count = 2`. -/
def exampleViews : List SpeakerView :=
  [{ prefixVal := PrefixVal.s "-2", speakerId := 4, stype := "old_speaker",
     first_in_group := true, last_in_group := false },
   { prefixVal := PrefixVal.s "-1", speakerId := 5, stype := "old_speaker",
     first_in_group := false, last_in_group := true },
   { prefixVal := PrefixVal.s "0", speakerId := 6, stype := "actual_speaker",
     first_in_group := true, last_in_group := true },
   { prefixVal := PrefixVal.i 1, speakerId := 7, stype := "coming_speaker",
     first_in_group := true, last_in_group := false },
   { prefixVal := PrefixVal.i 2, speakerId := 8, stype := "coming_speaker",
     first_in_group := false, last_in_group := true }]

/-- A successful list view, spelled with its three groups (the `.get()`
for the actual speaker succeeds or is skipped when at most one entry is
speaking). -/
theorem get_list_ok (db : List Speaker) (item : Nat) (oc cc : Int)
    (hact : (actuals db item).length ≤ 1) :
    Item.get_list_of_speakers db item (some oc) (some cc) =
      Except.ok (oldViews db item oc ++ (actuals db item).map mkActualView ++
        comingViews db item cc) := by
  rcases hact3 : actuals db item with _ | ⟨a, _ | ⟨b, rest⟩⟩
  · simp [Item.get_list_of_speakers, hact3]
  · simp [Item.get_list_of_speakers, hact3]
  · rw [hact3] at hact
    simp at hact

theorem countP_map_stype_zero (f : Speaker → SpeakerView) (c : String)
    (hf : ∀ a, ¬ (f a).stype = c) (lact : List Speaker) :
    (lact.map f).countP (fun v => v.stype == c) = 0 := by
  rw [List.countP_eq_zero]
  intro v hv
  rcases List.mem_map.mp hv with ⟨a, _, rfl⟩
  simpa using hf a

theorem countP_comingViews_old (db : List Speaker) (item : Nat) (cc : Int) :
    (comingViews db item cc).countP (fun v => v.stype == "old_speaker") = 0 := by
  rw [List.countP_eq_zero]
  intro v hv
  have := (mem_comingViews db item cc v hv).1
  simp [this]

theorem countP_oldViews_coming (db : List Speaker) (item : Nat) (oc : Int) :
    (oldViews db item oc).countP (fun v => v.stype == "coming_speaker") = 0 := by
  rw [List.countP_eq_zero]
  intro v hv
  have := (mem_oldViews db item oc v hv).1
  simp [this]

/-- C9: a negative `old_speakers_count` empties the spoken group, a
negative `coming_speakers_count` empties the coming group, and the view is
produced without error for every pair of integer counts. -/
theorem C9_negative_counts (db : List Speaker) (item : Nat) (oc cc : Int)
    (hact : (actuals db item).length ≤ 1) :
    ∃ l, Item.get_list_of_speakers db item (some oc) (some cc) = Except.ok l ∧
      (oc < 0 → l.countP (fun v => v.stype == "old_speaker") = 0) ∧
      (cc < 0 → l.countP (fun v => v.stype == "coming_speaker") = 0) := by
  refine ⟨_, get_list_ok db item oc cc hact, ?_, ?_⟩
  · intro hoc
    have hwin : oldWindow db item oc = [] := by
      unfold oldWindow
      rw [List.drop_eq_nil_iff]
      omega
    have hold : oldViews db item oc = [] := by
      unfold oldViews
      rw [hwin]
      rfl
    rw [hold, List.countP_append, List.countP_append]
    rw [countP_map_stype_zero mkActualView "old_speaker" (fun a => by simp [mkActualView])]
    rw [countP_comingViews_old]
    rfl
  · intro hcc
    have hwin : comingWindow db item cc = [] := by
      unfold comingWindow
      have : (max 0 cc).toNat = 0 := by omega
      rw [this]
      rfl
    have hcom : comingViews db item cc = [] := by
      unfold comingViews
      rw [hwin]
      rfl
    rw [hcom, List.countP_append, List.countP_append]
    rw [countP_map_stype_zero mkActualView "coming_speaker" (fun a => by simp [mkActualView])]
    rw [countP_oldViews_coming]
    rfl

/-- Witness for C9: the nine-entry example with counts `-1` and `-2`. -/
theorem C9_witness :
    ∃ l, Item.get_list_of_speakers
        [⟨1, 1, 1, some 0, some 1, none⟩, ⟨2, 2, 1, some 0, some 2, none⟩,
         ⟨3, 3, 1, some 0, some 3, none⟩, ⟨4, 4, 1, some 0, some 4, none⟩,
         ⟨5, 5, 1, some 0, some 5, none⟩, ⟨6, 6, 1, some 6, none, none⟩,
         ⟨7, 7, 1, none, none, some 1⟩, ⟨8, 8, 1, none, none, some 2⟩,
         ⟨9, 9, 1, none, none, some 3⟩] 1 (some (-1)) (some (-2)) = Except.ok l ∧
      ((-1 : Int) < 0 → l.countP (fun v => v.stype == "old_speaker") = 0) ∧
      ((-2 : Int) < 0 → l.countP (fun v => v.stype == "coming_speaker") = 0) :=
  C9_negative_counts
    [⟨1, 1, 1, some 0, some 1, none⟩, ⟨2, 2, 1, some 0, some 2, none⟩,
     ⟨3, 3, 1, some 0, some 3, none⟩, ⟨4, 4, 1, some 0, some 4, none⟩,
     ⟨5, 5, 1, some 0, some 5, none⟩, ⟨6, 6, 1, some 6, none, none⟩,
     ⟨7, 7, 1, none, none, some 1⟩, ⟨8, 8, 1, none, none, some 2⟩,
     ⟨9, 9, 1, none, none, some 3⟩] 1 (-1) (-2) (by decide)

/-- Witness for C10 at the concrete nine-entry table. -/
theorem C10_witness :
    (∀ v ∈ exampleViews,
      (v.stype = "old_speaker" →
        ∃ n : Int, v.prefixVal = PrefixVal.s ("-" ++ toString n)) ∧
      (v.stype = "actual_speaker" → v.prefixVal = PrefixVal.s "0") ∧
      (v.stype = "coming_speaker" → ∃ n : Int, v.prefixVal = PrefixVal.i n)) ∧
    Item.get_list_of_speakers exampleDb 1 (some 2) (some 2) =
      Except.ok exampleViews :=
  ⟨C10_prefix_types exampleDb 1 2 2 exampleViews (by rfl), by rfl⟩

/-- A queue with exactly three spoken entries on item 1. -/
def c3db : List Speaker :=
  [⟨1, 1, 1, some 0, some 1, none⟩, ⟨2, 2, 1, some 0, some 2, none⟩,
   ⟨3, 3, 1, some 0, some 3, none⟩]

/-- C3 (counterexample): with 3 spoken entries and `old_speakers_count = 5`
the prefixes are `-5, -4, -3` — not `-3, -2, -1` as "counting down from
the negated group size to -1" requires — and *no* entry of the non-empty
spoken group is marked last-in-group, contradicting "every non-empty group
marks exactly one last element". -/
theorem C3_counterexample :
    Item.get_list_of_speakers c3db 1 (some 5) (some 0) =
      Except.ok
        [{ prefixVal := PrefixVal.s "-5", speakerId := 1, stype := "old_speaker",
           first_in_group := true, last_in_group := false },
         { prefixVal := PrefixVal.s "-4", speakerId := 2, stype := "old_speaker",
           first_in_group := false, last_in_group := false },
         { prefixVal := PrefixVal.s "-3", speakerId := 3, stype := "old_speaker",
           first_in_group := false, last_in_group := false }] ∧
    ¬ ([PrefixVal.s "-5", PrefixVal.s "-4", PrefixVal.s "-3"] =
        [PrefixVal.s "-3", PrefixVal.s "-2", PrefixVal.s "-1"]) ∧
    ([{ prefixVal := PrefixVal.s "-5", speakerId := 1, stype := "old_speaker",
        first_in_group := true, last_in_group := false },
      { prefixVal := PrefixVal.s "-4", speakerId := 2, stype := "old_speaker",
        first_in_group := false, last_in_group := false },
      { prefixVal := PrefixVal.s "-3", speakerId := 3, stype := "old_speaker",
        first_in_group := false, last_in_group := false }] : List SpeakerView).countP
      (fun v => v.last_in_group) = 0 :=
  ⟨rfl, by decide, rfl⟩

/-- C3 (amended): the list view is the three groups in order (spoken
window, speaking entry, coming window); the spoken window holds the last
`min total oldCount` spoken entries with prefixes `-(oldCount - j)` for
positions `j` — these count down to `-1` exactly when `oldCount` does not
exceed the group total; the coming window holds the first
`min total comingCount` coming entries with integer prefixes `j + 1`; each
non-empty group marks exactly one first element, but a last element is
marked only when the requested count is at least 1 and at most the group
total (the count defaults cover the unlimited case). -/
theorem C3_amended (db : List Speaker) (item : Nat) (oc cc : Int)
    (hact : (actuals db item).length ≤ 1) :
    Item.get_list_of_speakers db item (some oc) (some cc) =
      Except.ok (oldViews db item oc ++ (actuals db item).map mkActualView ++
        comingViews db item cc) ∧
    (oldViews db item oc).length = min (oldSorted db item).length (max 0 oc).toNat ∧
    (comingViews db item cc).length = min (comingSorted db item).length (max 0 cc).toNat ∧
    (oldViews db item oc).map (fun v => v.prefixVal) =
      (List.range (oldWindow db item oc).length).map
        (fun j : Nat => PrefixVal.s ("-" ++ toString (oc - (j : Int)))) ∧
    (∀ a, actuals db item = [a] → (actuals db item).map mkActualView =
      [{ prefixVal := PrefixVal.s "0", speakerId := a.id, stype := "actual_speaker",
         first_in_group := true, last_in_group := true }]) ∧
    (comingViews db item cc).map (fun v => v.prefixVal) =
      (List.range (comingWindow db item cc).length).map
        (fun j : Nat => PrefixVal.i ((j : Int) + 1)) ∧
    (oldViews db item oc).map (fun v => v.stype) =
      List.replicate (oldWindow db item oc).length "old_speaker" ∧
    (comingViews db item cc).map (fun v => v.stype) =
      List.replicate (comingWindow db item cc).length "coming_speaker" ∧
    (oldViews db item oc).countP (fun v => v.first_in_group) =
      (if (oldWindow db item oc).length = 0 then 0 else 1) ∧
    (oldViews db item oc).countP (fun v => v.last_in_group) =
      (if 1 ≤ oc ∧ oc ≤ ((oldSorted db item).length : Int) then 1 else 0) ∧
    (comingViews db item cc).countP (fun v => v.first_in_group) =
      (if (comingWindow db item cc).length = 0 then 0 else 1) ∧
    (comingViews db item cc).countP (fun v => v.last_in_group) =
      (if 1 ≤ cc ∧ cc ≤ ((comingSorted db item).length : Int) then 1 else 0) := by
  have hmo : (oldViews db item oc).length = (oldWindow db item oc).length := by
    unfold oldViews
    rw [List.length_map, List.enum_length]
  have hwo : (oldWindow db item oc).length =
      (oldSorted db item).length -
        (max 0 (((oldSorted db item).length : Int) - oc)).toNat := by
    unfold oldWindow
    rw [List.length_drop]
  have hmc : (comingViews db item cc).length = (comingWindow db item cc).length := by
    unfold comingViews
    rw [List.length_map, List.enum_length]
  have hwc : (comingWindow db item cc).length =
      min (max 0 cc).toNat (comingSorted db item).length := by
    unfold comingWindow
    rw [List.length_take]
  refine ⟨get_list_ok db item oc cc hact, by omega, by omega, ?_, ?_, ?_, ?_, ?_,
    ?_, ?_, ?_, ?_⟩
  · exact map_enum_map (mkOldView oc) (fun v => v.prefixVal)
      (fun j : Nat => PrefixVal.s ("-" ++ toString (oc - (j : Int))))
      (fun j a => rfl) (oldWindow db item oc)
  · intro a ha
    rw [ha]
    rfl
  · exact map_enum_map (mkComingView cc) (fun v => v.prefixVal)
      (fun j : Nat => PrefixVal.i ((j : Int) + 1)) (fun j a => rfl)
      (comingWindow db item cc)
  · unfold oldViews
    rw [map_enum_map (mkOldView oc) (fun v => v.stype)
      (fun _ : Nat => "old_speaker") (fun j a => rfl) (oldWindow db item oc)]
    rw [List.map_const']
    rw [List.length_range]
  · unfold comingViews
    rw [map_enum_map (mkComingView cc) (fun v => v.stype)
      (fun _ : Nat => "coming_speaker") (fun j a => rfl) (comingWindow db item cc)]
    rw [List.map_const']
    rw [List.length_range]
  · unfold oldViews
    rw [countP_enum_map (mkOldView oc) (fun v => v.first_in_group)
      (fun j : Nat => j == 0) (fun j a => rfl) (oldWindow db item oc)]
    exact countP_range_zero_flag _
  · unfold oldViews
    rw [countP_enum_map (mkOldView oc) (fun v => v.last_in_group)
      (fun j : Nat => ((j : Int) == oc - 1)) (fun j a => rfl) (oldWindow db item oc)]
    rw [countP_range_int]
    have hiff : (0 ≤ oc - 1 ∧ oc - 1 < ((oldWindow db item oc).length : Int)) ↔
        (1 ≤ oc ∧ oc ≤ ((oldSorted db item).length : Int)) := by omega
    by_cases hcond : 1 ≤ oc ∧ oc ≤ ((oldSorted db item).length : Int)
    · rw [if_pos (hiff.mpr hcond), if_pos hcond]
    · rw [if_neg (fun hc => hcond (hiff.mp hc)), if_neg hcond]
  · unfold comingViews
    rw [countP_enum_map (mkComingView cc) (fun v => v.first_in_group)
      (fun j : Nat => j == 0) (fun j a => rfl) (comingWindow db item cc)]
    exact countP_range_zero_flag _
  · unfold comingViews
    rw [countP_enum_map (mkComingView cc) (fun v => v.last_in_group)
      (fun j : Nat => ((j : Int) == cc - 1)) (fun j a => rfl) (comingWindow db item cc)]
    rw [countP_range_int]
    have hiff : (0 ≤ cc - 1 ∧ cc - 1 < ((comingWindow db item cc).length : Int)) ↔
        (1 ≤ cc ∧ cc ≤ ((comingSorted db item).length : Int)) := by omega
    by_cases hcond : 1 ≤ cc ∧ cc ≤ ((comingSorted db item).length : Int)
    · rw [if_pos (hiff.mpr hcond), if_pos hcond]
    · rw [if_neg (fun hc => hcond (hiff.mp hc)), if_neg hcond]

/-- Witness for C3 (amended): the spec's worked example — 5 spoken, 1
speaking, 3 coming, counts 2 and 2 — yields exactly 5 entries with
prefixes `-2, -1, "0", 1, 2`. -/
theorem C3_witness :
    Item.get_list_of_speakers exampleDb 1 (some 2) (some 2) =
      Except.ok exampleViews ∧
    exampleViews.length = 5 ∧
    exampleViews.map (fun v => v.prefixVal) =
      [PrefixVal.s "-2", PrefixVal.s "-1", PrefixVal.s "0",
       PrefixVal.i 1, PrefixVal.i 2] := by
  have h := C3_amended exampleDb 1 2 2 (by decide)
  refine ⟨?_, rfl, by decide⟩
  rw [h.1]
  rfl

/-! ### C2: item numbering -/

theorem findItem_self (db : List AgendaItem) (x : AgendaItem)
    (hn : (db.map (fun y => y.id)).Nodup) (hx : x ∈ db) :
    findItem db x.id = some x := by
  induction db with
  | nil => cases hx
  | cons t l ih =>
      rw [List.map_cons, List.nodup_cons] at hn
      rcases List.mem_cons.mp hx with rfl | hx'
      · unfold findItem
        exact List.find?_cons_of_pos _ (by simp)
      · by_cases ht : (t.id == x.id) = true
        · exfalso
          apply hn.1
          rw [show t.id = x.id by simpa using ht]
          exact List.mem_map_of_mem _ hx'
        · unfold findItem
          rw [List.find?_cons_of_neg (p := fun y : AgendaItem => y.id == x.id) _ ht]
          exact ih hn.2 hx'

theorem findItem_id (db : List AgendaItem) (i : Nat) (x : AgendaItem)
    (h : findItem db i = some x) : x.id = i := by
  have := List.find?_some h
  simpa using this

theorem findItem_mem (db : List AgendaItem) (i : Nat) (x : AgendaItem)
    (h : findItem db i = some x) : x ∈ db :=
  List.mem_of_find?_eq_some h

theorem siblingWalk_eq_countP (l : List AgendaItem) :
    siblingWalk l = l.countP (fun y => y.itemType == AGENDA_ITEM) := by
  induction l with
  | nil => rfl
  | cons y rest ih =>
      unfold siblingWalk
      rw [List.countP_cons, ih]
      by_cases hy : (y.itemType == AGENDA_ITEM) = true <;> simp [hy] <;> omega

/-- The `_calc_sibling_no` loop counts exactly the preceding siblings of
type `AGENDA_ITEM`. -/
theorem calc_sibling_no_eq (db : List AgendaItem) (x : AgendaItem) :
    Item.calc_sibling_no db x = siblingPos db x := by
  unfold Item.calc_sibling_no siblingPos
  rw [siblingWalk_eq_countP, List.countP_reverse]

theorem calc_item_no_org (db : List AgendaItem) (system : String) (fuel : Nat)
    (x : AgendaItem) (hty : (x.itemType == AGENDA_ITEM) = false) :
    Item.calc_item_no db system (fuel + 1) x = "" := by
  rw [Item.calc_item_no]
  rw [if_neg (by simp [hty])]

theorem calc_item_no_root (db : List AgendaItem) (system : String) (fuel : Nat)
    (x : AgendaItem) (hty : (x.itemType == AGENDA_ITEM) = true)
    (hp : x.parent = none) :
    Item.calc_item_no db system (fuel + 1) x =
      (if (system == "arabic") = true then toString (Item.calc_sibling_no db x)
       else to_roman (Item.calc_sibling_no db x)) := by
  rw [Item.calc_item_no]
  rw [if_pos hty, hp]

theorem calc_item_no_child (db : List AgendaItem) (system : String) (fuel : Nat)
    (x : AgendaItem) (p : Nat) (px : AgendaItem)
    (hty : (x.itemType == AGENDA_ITEM) = true) (hp : x.parent = some p)
    (hfp : findItem db p = some px) :
    Item.calc_item_no db system (fuel + 1) x =
      Item.calc_item_no db system fuel px ++ "." ++
        toString (Item.calc_sibling_no db x) := by
  rw [Item.calc_item_no]
  rw [if_pos hty, hp]
  show (match findItem db p with
    | some px => Item.calc_item_no db system fuel px ++ "." ++
        toString (Item.calc_sibling_no db x)
    | none => "") = _
  rw [hfp]

theorem reachesRoot_step (db : List AgendaItem) (n : Nat) (x : AgendaItem)
    (hfind : findItem db x.id = some x)
    (h : reachesRoot db (n + 1) (some x.id) = true) :
    reachesRoot db n x.parent = true := by
  have h0 : (match findItem db x.id with
      | none => false
      | some y => reachesRoot db n y.parent) = true := h
  rw [hfind] at h0
  exact h0

theorem reachesRoot_find (db : List AgendaItem) (n : Nat) (p : Nat)
    (h : reachesRoot db n (some p) = true) :
    ∃ px, findItem db p = some px := by
  cases n with
  | zero => cases h
  | succ n' =>
      cases hfp : findItem db p with
      | none =>
          have h0 : (match findItem db p with
              | none => false
              | some y => reachesRoot db n' y.parent) = true := h
          rw [hfp] at h0
          cases h0
      | some px => exact ⟨px, rfl⟩

/-- The fueled `calc_item_no` recursion is stable once the fuel covers the
ancestor chain. -/
theorem calc_fuel_stable (db : List AgendaItem) (system : String) :
    ∀ (n : Nat) (x : AgendaItem), (db.map (fun y => y.id)).Nodup → x ∈ db →
      reachesRoot db n (some x.id) = true → ∀ m, n ≤ m →
      Item.calc_item_no db system n x = Item.calc_item_no db system m x := by
  intro n
  induction n with
  | zero => intro x _ _ hroot; cases hroot
  | succ n ih =>
      intro x hn hx hroot m hm
      obtain ⟨m', rfl⟩ : ∃ m', m = m' + 1 := ⟨m - 1, by omega⟩
      have hfind : findItem db x.id = some x := findItem_self db x hn hx
      have hroot2 : reachesRoot db n x.parent = true :=
        reachesRoot_step db n x hfind hroot
      by_cases hty : (x.itemType == AGENDA_ITEM) = true
      · cases hp : x.parent with
        | none => rw [calc_item_no_root db system n x hty hp,
            calc_item_no_root db system m' x hty hp]
        | some p =>
            rw [hp] at hroot2
            rcases reachesRoot_find db n p hroot2 with ⟨px, hfp⟩
            have hpx : reachesRoot db n (some px.id) = true := by
              rw [findItem_id db p px hfp]
              exact hroot2
            rw [calc_item_no_child db system n x p px hty hp hfp,
              calc_item_no_child db system m' x p px hty hp hfp,
              ih px hn (findItem_mem db p px hfp) hpx m' (by omega)]
      · rw [calc_item_no_org db system n x (by simpa using hty),
          calc_item_no_org db system m' x (by simpa using hty)]

/-- A pair of items: a root agenda item and its agenda child. -/
def c2db : List AgendaItem := [⟨1, none, 0, 1⟩, ⟨2, some 1, 0, 1⟩]

/-- C2 (counterexample): under the roman numeral system the child of the
first root item is numbered `"I.1"`, not `"I.I"` — the non-root level is
rendered in decimal, not through the configured formatter. -/
theorem C2_counterexample :
    Item.item_number c2db "roman" ⟨2, some 1, 0, 1⟩ = "I.1" ∧
    ¬ (Item.item_number c2db "roman" ⟨2, some 1, 0, 1⟩ =
        Item.item_number c2db "roman" ⟨1, none, 0, 1⟩ ++ "." ++
          NumberFormatter.format (siblingPos c2db ⟨2, some 1, 0, 1⟩) "roman") := by
  exact ⟨rfl, by decide⟩

/-- C2 (amended): `itemNumber` is empty for organizational items; a root
agenda item is rendered through the configured numeral system; a non-root
agenda item is the parent's number, a dot, and the **decimal** sibling
position regardless of the configured system; the position counts only the
preceding AGENDA-typed siblings. -/
theorem C2_amended (db : List AgendaItem) (system : String) (x : AgendaItem)
    (hn : (db.map (fun y => y.id)).Nodup) (hx : x ∈ db)
    (hroot : reachesRoot db db.length (some x.id) = true) :
    (x.itemType = ORGANIZATIONAL_ITEM → Item.item_number db system x = "") ∧
    (x.itemType = AGENDA_ITEM → x.parent = none →
      Item.item_number db system x =
        NumberFormatter.format (siblingPos db x) system) ∧
    (x.itemType = AGENDA_ITEM → ∀ p px, x.parent = some p →
      findItem db p = some px →
      Item.item_number db system x =
        Item.item_number db system px ++ "." ++ toString (siblingPos db x)) := by
  obtain ⟨k, hk⟩ : ∃ k, db.length = k + 1 := by
    cases hdb : db with
    | nil => rw [hdb] at hx; cases hx
    | cons a l => exact ⟨l.length, rfl⟩
  have hfind : findItem db x.id = some x := findItem_self db x hn hx
  refine ⟨?_, ?_, ?_⟩
  · intro hty
    unfold Item.item_number
    rw [hk, calc_item_no_org db system k x
      (by simp [hty, ORGANIZATIONAL_ITEM, AGENDA_ITEM])]
  · intro hty hp
    unfold Item.item_number
    rw [hk, calc_item_no_root db system k x (by simp [hty, AGENDA_ITEM]) hp,
      ← calc_sibling_no_eq]
    rfl
  · intro hty p px hp hfp
    unfold Item.item_number
    rw [hk, calc_item_no_child db system k x p px (by simp [hty, AGENDA_ITEM]) hp hfp,
      ← calc_sibling_no_eq]
    have hroot1 : reachesRoot db (k + 1) (some x.id) = true := by
      rw [← hk]
      exact hroot
    have hroot2 : reachesRoot db k x.parent = true :=
      reachesRoot_step db k x hfind hroot1
    rw [hp] at hroot2
    rw [calc_fuel_stable db system k px hn (findItem_mem db p px hfp)
      (by rw [findItem_id db p px hfp]; exact hroot2) (k + 1) (by omega)]

/-- Agenda forest used to witness C2: an organizational root, two agenda
roots, and an agenda child under the second agenda root. -/
def c2wdb : List AgendaItem :=
  [⟨1, none, 0, 2⟩, ⟨2, none, 1, 1⟩, ⟨3, none, 2, 1⟩, ⟨4, some 3, 0, 1⟩]

/-- Witness for C2 (amended) at the item `4` (child of the second agenda
root, whose own number is `II` under roman numbering). -/
theorem C2_witness :
    ((⟨4, some 3, 0, 1⟩ : AgendaItem).itemType = ORGANIZATIONAL_ITEM →
      Item.item_number c2wdb "roman" ⟨4, some 3, 0, 1⟩ = "") ∧
    ((⟨4, some 3, 0, 1⟩ : AgendaItem).itemType = AGENDA_ITEM →
      (⟨4, some 3, 0, 1⟩ : AgendaItem).parent = none →
      Item.item_number c2wdb "roman" ⟨4, some 3, 0, 1⟩ =
        NumberFormatter.format (siblingPos c2wdb ⟨4, some 3, 0, 1⟩) "roman") ∧
    ((⟨4, some 3, 0, 1⟩ : AgendaItem).itemType = AGENDA_ITEM →
      ∀ p px, (⟨4, some 3, 0, 1⟩ : AgendaItem).parent = some p →
      findItem c2wdb p = some px →
      Item.item_number c2wdb "roman" ⟨4, some 3, 0, 1⟩ =
        Item.item_number c2wdb "roman" px ++ "." ++
          toString (siblingPos c2wdb ⟨4, some 3, 0, 1⟩)) :=
  C2_amended c2wdb "roman" ⟨4, some 3, 0, 1⟩ (by decide) (by decide) (by decide)

/-! ### C6: deletion -/

theorem ancestorChain_none (db : List AgendaItem) (fuel : Nat) :
    ancestorChain db fuel none = [] := by
  cases fuel <;> rfl

theorem ancestorChain_succ_found (db : List AgendaItem) (fuel : Nat) (i : Nat)
    (x : AgendaItem) (hf : findItem db i = some x) :
    ancestorChain db (fuel + 1) (some i) = i :: ancestorChain db fuel x.parent := by
  rw [ancestorChain, hf]

theorem ancestorChain_succ_notfound (db : List AgendaItem) (fuel : Nat) (i : Nat)
    (hf : findItem db i = none) :
    ancestorChain db (fuel + 1) (some i) = [i] := by
  rw [ancestorChain, hf]

theorem chain_stable (db : List AgendaItem) :
    ∀ (n : Nat) (o : Option Nat), reachesRoot db n o = true → ∀ m, n ≤ m →
      ancestorChain db m o = ancestorChain db n o := by
  intro n
  induction n with
  | zero =>
      intro o h m _
      cases o with
      | none => rw [ancestorChain_none, ancestorChain_none]
      | some i => cases h
  | succ n ih =>
      intro o h m hm
      cases o with
      | none => rw [ancestorChain_none, ancestorChain_none]
      | some i =>
          obtain ⟨m', rfl⟩ : ∃ m', m = m' + 1 := ⟨m - 1, by omega⟩
          cases hf : findItem db i with
          | none =>
              have h0 : (match findItem db i with
                  | none => false
                  | some y => reachesRoot db n y.parent) = true := h
              rw [hf] at h0
              cases h0
          | some x =>
              have h0 : reachesRoot db n x.parent = true := by
                have h1 : (match findItem db i with
                    | none => false
                    | some y => reachesRoot db n y.parent) = true := h
                rw [hf] at h1
                exact h1
              rw [ancestorChain_succ_found db m' i x hf,
                ancestorChain_succ_found db n i x hf,
                ih x.parent h0 m' (by omega)]

theorem no_self_loop (db : List AgendaItem) :
    ∀ (n : Nat) (i : Nat) (y : AgendaItem),
      reachesRoot db n (some i) = true → findItem db i = some y →
      y.parent = some i → False := by
  intro n
  induction n with
  | zero => intro i y h _ _; cases h
  | succ n ih =>
      intro i y h hf hp
      have h0 : (match findItem db i with
          | none => false
          | some z => reachesRoot db n z.parent) = true := h
      rw [hf] at h0
      have h1 : reachesRoot db n y.parent = true := h0
      rw [hp] at h1
      exact ih i y h1 hf hp

theorem desc_to_chain (db : List AgendaItem) (k : Nat)
    (hn : (db.map (fun y => y.id)).Nodup)
    (HR : ∀ x ∈ db, reachesRoot db db.length (some x.id) = true) :
    ∀ j, Desc db k j → k ∈ ancestorChain db (db.length + 1) (some j) := by
  intro j hdesc
  induction hdesc with
  | refl =>
      cases hf : findItem db k with
      | none => rw [ancestorChain_succ_notfound db db.length k hf]; exact List.mem_singleton.mpr rfl
      | some x =>
          rw [ancestorChain_succ_found db db.length k x hf]
          exact List.mem_cons_self _ _
  | step x p hx hp _ ih =>
      have hfind : findItem db x.id = some x := findItem_self db x hn hx
      rw [ancestorChain_succ_found db db.length x.id x hfind, hp]
      apply List.mem_cons_of_mem
      obtain ⟨l', hl⟩ : ∃ l', db.length = l' + 1 := by
        cases hdb : db with
        | nil => rw [hdb] at hx; cases hx
        | cons a t => exact ⟨t.length, rfl⟩
      have hrx : reachesRoot db db.length (some x.id) = true := HR x hx
      have hrp : reachesRoot db l' (some p) = true := by
        rw [hl] at hrx
        have := reachesRoot_step db l' x hfind hrx
        rw [hp] at this
        exact this
      have e1 : ancestorChain db (db.length + 1) (some p) =
          ancestorChain db l' (some p) := chain_stable db l' _ hrp _ (by omega)
      have e2 : ancestorChain db db.length (some p) =
          ancestorChain db l' (some p) := chain_stable db l' _ hrp _ (by omega)
      rw [e2, ← e1]
      exact ih

theorem chain_to_desc (db : List AgendaItem) (k : Nat) :
    ∀ (fuel : Nat) (i : Nat), k ∈ ancestorChain db fuel (some i) → Desc db k i := by
  intro fuel
  induction fuel with
  | zero => intro i h; cases h
  | succ fuel ih =>
      intro i h
      cases hf : findItem db i with
      | none =>
          rw [ancestorChain_succ_notfound db fuel i hf] at h
          rcases List.mem_singleton.mp h with rfl
          exact Desc.refl
      | some x =>
          rw [ancestorChain_succ_found db fuel i x hf] at h
          rcases List.mem_cons.mp h with rfl | h'
          · exact Desc.refl
          · cases hp : x.parent with
            | none => rw [hp, ancestorChain_none] at h'; cases h'
            | some p =>
                rw [hp] at h'
                have hdesc := Desc.step x p (findItem_mem db i x hf) hp (ih p h')
                rw [findItem_id db i x hf] at hdesc
                exact hdesc

/-- Chain membership decides exactly the inductive subtree relation on
rooted tables. -/
theorem inSubtree_iff_desc (db : List AgendaItem) (k : Nat)
    (hn : (db.map (fun y => y.id)).Nodup)
    (HR : ∀ x ∈ db, reachesRoot db db.length (some x.id) = true)
    (j : Nat) :
    inSubtree db k j = true ↔ Desc db k j := by
  unfold inSubtree
  constructor
  · intro h
    exact chain_to_desc db k (db.length + 1) j
      (by simpa using h)
  · intro h
    simpa using desc_to_chain db k hn HR j h

theorem delete_false_items (db : List AgendaItem) (k : Nat) :
    (Item.delete db k false).items =
      (db.map (fun x => if x.parent == some k then
        { x with parent := (findItem db k).bind (fun y => y.parent) } else x)).filter
        (fun x => !(x.id == k)) := rfl

theorem delete_true_items (db : List AgendaItem) (k : Nat) :
    (Item.delete db k true).items =
      db.filter (fun x => !(inSubtree db k x.id)) := rfl

theorem reparent_map_id (db : List AgendaItem) (k : Nat) (p : Option Nat) :
    (db.map (fun x => if x.parent == some k then { x with parent := p } else x)).map
      (fun y => y.id) = db.map (fun y => y.id) := by
  rw [List.map_map]
  apply List.map_congr_left
  intro x _
  simp only [Function.comp_apply]
  by_cases h : (x.parent == some k) = true <;> simp [h]

theorem map_id_filter (l : List AgendaItem) (k : Nat) :
    ((l.filter (fun x => !(x.id == k))).map (fun y => y.id)) =
      (l.map (fun y => y.id)).filter (fun i => !(i == k)) := by
  induction l with
  | nil => rfl
  | cons t rest ih =>
      by_cases ht : (t.id == k) = true
      · simp only [List.filter_cons, List.map_cons, ht, Bool.not_true, if_false,
          Bool.false_eq_true]
        exact ih
      · have ht' : (!(t.id == k)) = true := by simp [ht]
        simp only [List.filter_cons, List.map_cons, ht', if_true, if_pos,
          List.map_cons]
        rw [ih]

theorem ids_delete_false (db : List AgendaItem) (k : Nat) :
    (Item.delete db k false).items.map (fun y => y.id) =
      (db.map (fun y => y.id)).filter (fun i => !(i == k)) := by
  rw [delete_false_items, map_id_filter, reparent_map_id]

theorem findIdx_ids (l : List AgendaItem) (i : Nat) :
    l.findIdx (fun x => x.id == i) =
      (l.map (fun y => y.id)).findIdx (fun j => j == i) := by
  induction l with
  | nil => rfl
  | cons t rest ih =>
      rw [List.map_cons, List.findIdx_cons, List.findIdx_cons]
      by_cases ht : (t.id == i) = true
      · rw [ht]
        rfl
      · have ht' : (t.id == i) = false := by simpa using ht
        rw [ht']
        simp only [cond_false]
        rw [ih]

theorem findIdx_filter_order (k : Nat) :
    ∀ (l : List Nat) (a b : Nat), a ∈ l → b ∈ l → a ≠ k → b ≠ k → a ≠ b →
      (((l.filter (fun i => !(i == k))).findIdx (fun j => j == a) <
        (l.filter (fun i => !(i == k))).findIdx (fun j => j == b)) ↔
       (l.findIdx (fun j => j == a) < l.findIdx (fun j => j == b))) := by
  intro l
  induction l with
  | nil => intro a b ha; cases ha
  | cons h t ih =>
      intro a b ha hb hak hbk hab
      by_cases hhk : h = k
      · have hfa : (h == a) = false := by simp [hhk, Ne.symm hak]
        have hfb : (h == b) = false := by simp [hhk, Ne.symm hbk]
        have hkeep : (!(h == k)) = false := by simp [hhk]
        rw [List.filter_cons, if_neg (by simp [hkeep]), List.findIdx_cons,
          List.findIdx_cons, hfa, hfb]
        simp only [cond_false]
        have ha' : a ∈ t := by
          rcases List.mem_cons.mp ha with rfl | h'
          · exact absurd hhk hak
          · exact h'
        have hb' : b ∈ t := by
          rcases List.mem_cons.mp hb with rfl | h'
          · exact absurd hhk hbk
          · exact h'
        have hiff := ih a b ha' hb' hak hbk hab
        constructor
        · intro hlt
          have := hiff.mp hlt
          omega
        · intro hlt
          have := hiff.mpr (by omega)
          omega
      · have hkeep : (!(h == k)) = true := by simp [hhk]
        rw [List.filter_cons, if_pos (by simp [hkeep])]
        by_cases hha : h = a
        · have h1 : (h == a) = true := by simp [hha]
          have h2 : (h == b) = false := by simp [hha, hab]
          rw [List.findIdx_cons, List.findIdx_cons, List.findIdx_cons,
            List.findIdx_cons, h1, h2]
          simp only [cond_true, cond_false]
          omega
        · by_cases hhb : h = b
          · have h1 : (h == a) = false := by simp [hhb, Ne.symm hab]
            have h2 : (h == b) = true := by simp [hhb]
            rw [List.findIdx_cons, List.findIdx_cons, List.findIdx_cons,
              List.findIdx_cons, h1, h2]
            simp only [cond_true, cond_false]
            omega
          · have h1 : (h == a) = false := by simp [hha]
            have h2 : (h == b) = false := by simp [hhb]
            have ha' : a ∈ t := by
              rcases List.mem_cons.mp ha with rfl | h'
              · exact absurd rfl hha
              · exact h'
            have hb' : b ∈ t := by
              rcases List.mem_cons.mp hb with rfl | h'
              · exact absurd rfl hhb
              · exact h'
            rw [List.findIdx_cons, List.findIdx_cons, List.findIdx_cons,
              List.findIdx_cons, h1, h2]
            simp only [cond_false]
            have hiff := ih a b ha' hb' hak hbk hab
            constructor
            · intro hlt
              have := hiff.mp (by omega)
              omega
            · intro hlt
              have := hiff.mpr (by omega)
              omega

/-- C6: `delete` with `with_children = false` reparents every direct child
to the deleted item's own parent (keeping its weight), removes only the
item itself, and preserves the relative sibling order of the former
children; `delete` with `with_children = true` removes exactly the subtree
of the item; both call the full index rebuild afterwards.  The hypotheses
are the MPTT table invariants: distinct primary keys, the deleted id
present, every parent chain rooted. -/
theorem C6_delete (db : List AgendaItem) (k : Nat) (kx : AgendaItem)
    (hn : (db.map (fun y => y.id)).Nodup) (hkmem : kx ∈ db) (hkid : kx.id = k)
    (HR : ∀ x ∈ db, reachesRoot db db.length (some x.id) = true) :
    (Item.delete db k false).rebuilt = true ∧
    (Item.delete db k true).rebuilt = true ∧
    (∀ x ∈ db, x.parent = some k →
      ({ x with parent := kx.parent } : AgendaItem) ∈ (Item.delete db k false).items) ∧
    (∀ x ∈ db, x.id ≠ k → x.parent ≠ some k → x ∈ (Item.delete db k false).items) ∧
    (∀ y ∈ (Item.delete db k false).items, y.id ≠ k ∧ ∃ x ∈ db, x.id = y.id) ∧
    (∀ c1 ∈ db, ∀ c2 ∈ db, c1.parent = some k → c2.parent = some k →
      c1.id ≠ c2.id →
      (siblingBefore (Item.delete db k false).items
          { c1 with parent := kx.parent } { c2 with parent := kx.parent } ↔
        siblingBefore db c1 c2)) ∧
    (∀ x ∈ db, (x ∈ (Item.delete db k true).items ↔ ¬ Desc db k x.id)) := by
  have hfk : findItem db k = some kx := by
    rw [← hkid]
    exact findItem_self db kx hn hkmem
  have hitems : (Item.delete db k false).items =
      (db.map (fun x => if x.parent == some k then { x with parent := kx.parent }
        else x)).filter (fun x => !(x.id == k)) := by
    rw [delete_false_items, hfk]
    rfl
  have hchild_ne : ∀ x ∈ db, x.parent = some k → x.id ≠ k := by
    intro x hx hp hxk
    apply no_self_loop db db.length k x
    · rw [← hxk]
      exact HR x hx
    · rw [← hxk]
      exact findItem_self db x hn hx
    · rw [hp]
  have hA2 : ∀ x ∈ db, x.parent = some k →
      ({ x with parent := kx.parent } : AgendaItem) ∈ (Item.delete db k false).items := by
    intro x hx hp
    rw [hitems]
    refine List.mem_filter.mpr ⟨List.mem_map.mpr ⟨x, hx, ?_⟩, ?_⟩
    · rw [if_pos (by simp [hp])]
    · simp only [Bool.not_eq_true']
      simp [hchild_ne x hx hp]
  refine ⟨rfl, rfl, hA2, ?_, ?_, ?_, ?_⟩
  · intro x hx hxk hxp
    rw [hitems]
    refine List.mem_filter.mpr ⟨List.mem_map.mpr ⟨x, hx, ?_⟩, by simp [hxk]⟩
    rw [if_neg (by simp [hxp])]
  · intro y hy
    rw [hitems] at hy
    rcases List.mem_filter.mp hy with ⟨hy1, hy2⟩
    rcases List.mem_map.mp hy1 with ⟨x, hx, rfl⟩
    have hid : (if x.parent == some k then
        ({ x with parent := kx.parent } : AgendaItem) else x).id = x.id := by
      by_cases h : (x.parent == some k) = true <;> simp [h]
    constructor
    · rw [hid]
      rw [hid] at hy2
      simpa using hy2
    · exact ⟨x, hx, hid.symm⟩
  · intro c1 h1 c2 h2 hp1 hp2 hne
    have hne1 : c1.id ≠ k := hchild_ne c1 h1 hp1
    have hne2 : c2.id ≠ k := hchild_ne c2 h2 hp2
    have hpos : (itemPos (Item.delete db k false).items c1.id <
        itemPos (Item.delete db k false).items c2.id) ↔
        (itemPos db c1.id < itemPos db c2.id) := by
      unfold itemPos
      rw [findIdx_ids, findIdx_ids ((Item.delete db k false).items),
        ids_delete_false, findIdx_ids db, findIdx_ids db]
      exact findIdx_filter_order k (db.map (fun y => y.id)) c1.id c2.id
        (List.mem_map_of_mem _ h1) (List.mem_map_of_mem _ h2) hne1 hne2 hne
    exact or_congr Iff.rfl (and_congr Iff.rfl hpos)
  · intro x hx
    rw [delete_true_items]
    constructor
    · intro hmem
      rcases List.mem_filter.mp hmem with ⟨_, hns⟩
      intro hdesc
      rw [(inSubtree_iff_desc db k hn HR x.id).mpr hdesc] at hns
      cases hns
    · intro hnd
      refine List.mem_filter.mpr ⟨hx, ?_⟩
      simp only [Bool.not_eq_true']
      cases hsub : inSubtree db k x.id with
      | false => rfl
      | true => exact absurd ((inSubtree_iff_desc db k hn HR x.id).mp hsub) hnd

/-- Tree used to witness C6: two roots, item 2 under root 1 with two
children 4 and 6, and a sibling 3 under root 1. -/
def c6db : List AgendaItem :=
  [⟨1, none, 0, 1⟩, ⟨2, some 1, 5, 1⟩, ⟨3, some 1, 3, 1⟩,
   ⟨4, some 2, 1, 1⟩, ⟨5, none, 1, 1⟩, ⟨6, some 2, 1, 1⟩]

/-- Witness for C6: deleting item 2 of `c6db`. -/
theorem C6_witness :
    (Item.delete c6db 2 false).rebuilt = true ∧
    (Item.delete c6db 2 true).rebuilt = true ∧
    (∀ x ∈ c6db, x.parent = some 2 →
      ({ x with parent := some 1 } : AgendaItem) ∈ (Item.delete c6db 2 false).items) ∧
    (∀ x ∈ c6db, x.id ≠ 2 → x.parent ≠ some 2 → x ∈ (Item.delete c6db 2 false).items) ∧
    (∀ y ∈ (Item.delete c6db 2 false).items, y.id ≠ 2 ∧ ∃ x ∈ c6db, x.id = y.id) ∧
    (∀ c1 ∈ c6db, ∀ c2 ∈ c6db, c1.parent = some 2 → c2.parent = some 2 →
      c1.id ≠ c2.id →
      (siblingBefore (Item.delete c6db 2 false).items
          { c1 with parent := some 1 } { c2 with parent := some 1 } ↔
        siblingBefore c6db c1 c2)) ∧
    (∀ x ∈ c6db, (x ∈ (Item.delete c6db 2 true).items ↔ ¬ Desc c6db 2 x.id)) :=
  C6_delete c6db 2 ⟨2, some 1, 5, 1⟩ (by decide) (by decide) rfl (by decide)

end OpenSlides
